import Mathlib

/-!
# go-raydium-api: the HTTP adapter of `raydium.go`

A shallow embedding of `src/raydium.go` (package `raydium`): the request builder of
`getAndUnmarshalJson` / `postAndUnmarshalJson`, the decode-target resolution of `getPointer`,
the convenience call `SwapQuote`, and the `sync.Pool` of transport clients set up by
`NewRaydium`.

Go strings are modelled by `String` (valid UTF-8 only).  A Go `map[string]string` is a
list of entries; a nil map is `none`.  The Go standard library and the two third-party
packages the file calls are modelled as follows:

* string-level functions whose result is fixed by their documentation are written out
  (`CanonicalMIMEHeaderKey`, `url.QueryEscape`, `url.Values.Encode`, the text of a
  parsed `url.URL`, `json.Marshal` on the `RaydiumRequest` struct, `query.Values` on
  `RaydiumQuoteRequest`);
* everything that touches the outside world or decodes arbitrary JSON is a field of
  `World`: URL parsing inside `http.NewRequest`, the iteration order of `range` over a
  map, the round trip of the transport client, reading the response body, and the JSON
  decoders, which work on the whole heap;
* `urlParse` writes out `url.Parse` for URLs with a plain host; the concrete world
  `demoWorld` parses with it.
-/

namespace RaydiumApi

/-! ## Go maps -/

/-- A non-nil Go `map[string]string`: its entries. -/
abbrev GoMap := List (String × String)

/-- Go `m[k]` with the comma-ok form: the value stored under exactly the key `k`. -/
def GoMap.lookup : GoMap → String → Option String
  | [], _ => none
  | e :: rest, k => if e.1 = k then some e.2 else GoMap.lookup rest k

/-- Go `m[k] = v`: overwrite the entry stored under `k`, or add one. -/
def GoMap.assign : GoMap → String → String → GoMap
  | [], k, v => [(k, v)]
  | e :: rest, k, v => if e.1 = k then (k, v) :: rest else e :: GoMap.assign rest k v

/-! ## net/textproto: canonical header keys -/

/-- The byte test `validHeaderFieldByte` of `net/textproto`: the RFC 7230 token
characters (digits, ASCII letters and ``!#$%&'*+-.^_`|~``). -/
def validHeaderFieldByte (c : Char) : Bool :=
  let n := c.toNat
  (48 ≤ n && n ≤ 57) || (97 ≤ n && n ≤ 122) || (65 ≤ n && n ≤ 90) ||
    [33, 35, 36, 37, 38, 39, 42, 43, 45, 46, 94, 95, 96, 124, 126].contains n

/-- The rewriting loop of `canonicalMIMEHeaderKey`: upper-case the first letter and every
letter after a dash, lower-case every other letter. -/
def canonicalLoop : Bool → List Char → List Char
  | _, [] => []
  | upper, c :: cs =>
    let c1 :=
      if upper && 97 ≤ c.toNat && c.toNat ≤ 122 then Char.ofNat (c.toNat - 32)
      else if !upper && 65 ≤ c.toNat && c.toNat ≤ 90 then Char.ofNat (c.toNat + 32)
      else c
    c1 :: canonicalLoop (c1 == '-') cs

/-- Go `textproto.CanonicalMIMEHeaderKey`: a key made of token characters only is put in
canonical form; a key holding a space or any other invalid byte is returned unchanged. -/
def CanonicalMIMEHeaderKey (s : String) : String :=
  if s.data.all validHeaderFieldByte then String.mk (canonicalLoop true s.data) else s

/-- The header of a request, `http.Header`: canonical key to value.  The builder only
ever calls `Set`, which leaves one value under a key, so a value is one string. -/
abbrev Header := List (String × String)

/-- Go `http.Header.Set`: `h[CanonicalMIMEHeaderKey(key)] = []string{value}`. -/
def Header.Set (h : Header) (key value : String) : Header :=
  GoMap.assign h (CanonicalMIMEHeaderKey key) value

/-- Go `http.Header.Get`: the value stored under the canonical form of `key`. -/
def Header.Get (h : Header) (key : String) : Option String :=
  GoMap.lookup h (CanonicalMIMEHeaderKey key)

/-! ## net/url: query escaping and `Values.Encode` -/

/-- The UTF-8 bytes of a character. -/
def utf8Bytes (c : Char) : List Nat :=
  let n := c.toNat
  if n < 128 then [n]
  else if n < 2048 then [192 + n / 64, 128 + n % 64]
  else if n < 65536 then [224 + n / 4096, 128 + n / 64 % 64, 128 + n % 64]
  else [240 + n / 262144, 128 + n / 4096 % 64, 128 + n / 64 % 64, 128 + n % 64]

/-- The digit of `"0123456789ABCDEF"` at index `n`. -/
def upperhex (n : Nat) : Char :=
  if n < 10 then Char.ofNat (48 + n) else Char.ofNat (55 + n)

/-- Go `shouldEscape(c, encodeQueryComponent)` is false exactly for the unreserved
characters: ASCII letters, digits, `-`, `_`, `.` and `~`. -/
def unreservedByte (n : Nat) : Bool :=
  (97 ≤ n && n ≤ 122) || (65 ≤ n && n ≤ 90) || (48 ≤ n && n ≤ 57) ||
    n == 45 || n == 95 || n == 46 || n == 126

/-- The escape of one byte under `url.QueryEscape`. -/
def escapeByte (n : Nat) : List Char :=
  if unreservedByte n then [Char.ofNat n]
  else if n = 32 then ['+']
  else ['%', upperhex (n / 16), upperhex (n % 16)]

/-- Go `url.QueryEscape`. -/
def QueryEscape (s : String) : String :=
  String.mk (s.data.flatMap (fun c => (utf8Bytes c).flatMap escapeByte))

/-- The bytes of a Go string. -/
def goBytes (s : String) : List Nat :=
  s.data.flatMap utf8Bytes

/-- Lexicographic order on byte sequences: `a ≤ b`. -/
def bytesLE : List Nat → List Nat → Bool
  | [], _ => true
  | _ :: _, [] => false
  | x :: xs, y :: ys => x < y || (x == y && bytesLE xs ys)

/-- Go string comparison `a <= b`, which is byte-wise. -/
def stringLE (a b : String) : Bool :=
  bytesLE (goBytes a) (goBytes b)

/-- Insertion of an entry into a list sorted by key. -/
def insertByKey {α : Type} (e : String × α) : List (String × α) → List (String × α)
  | [] => [e]
  | x :: xs => if stringLE e.1 x.1 then e :: x :: xs else x :: insertByKey e xs

/-- The entries of a map ordered by key (`slices.Sort(keys)` / the sorted keys of
`encoding/json`). -/
def sortByKey {α : Type} (m : List (String × α)) : List (String × α) :=
  m.foldr insertByKey []

/-- Go `url.Values`, a `map[string][]string`: its entries. -/
abbrev Values := List (String × List String)

/-- Go `url.Values.Encode`: the keys are sorted, and every value under a key gives one
`key=value` item, both escaped, the items joined by `&`. -/
def Values.Encode (v : Values) : String :=
  "&".intercalate
    ((sortByKey v).flatMap (fun e => e.2.map (fun x => QueryEscape e.1 ++ "=" ++ QueryEscape x)))

/-- Go `strconv.FormatInt(n, 10)`, which is what `fmt.Sprint` prints for an integer. -/
def formatInt (n : Int) : String :=
  match n with
  | Int.ofNat m => Nat.repr m
  | Int.negSucc m => "-" ++ Nat.repr (m + 1)

/-! ## net/url: the parsed URL of a request -/

/-- Go `url.URL`, without its `User` field. -/
structure URL where
  Scheme : String
  Opaque : String
  Host : String
  Path : String
  RawPath : String
  OmitHost : Bool
  ForceQuery : Bool
  RawQuery : String
  Fragment : String
  RawFragment : String
  deriving DecidableEq, Repr

/-- The escaping modes of `net/url` a URL's text depends on. -/
inductive Encoding where
  | encodePath
  | encodeHost
  | encodeFragment
  deriving DecidableEq, Repr

/-- An ASCII letter or digit. -/
def isAlnum (n : Nat) : Bool :=
  (97 ≤ n && n ≤ 122) || (65 ≤ n && n ≤ 90) || (48 ≤ n && n ≤ 57)

/-- Go `shouldEscape(c, mode)` for the three modes above.  Letters, digits and
`-_.~` are never escaped; a host also keeps ``!$&'()*+,;=:[]<>"``; of the reserved
characters `$&+,/:;=?@` a path escapes only `?` and a fragment none; a fragment also
keeps `!()*`; every other byte is escaped. -/
def shouldEscape (n : Nat) (mode : Encoding) : Bool :=
  if isAlnum n then false
  else if mode = .encodeHost ∧
      [33, 36, 38, 39, 40, 41, 42, 43, 44, 59, 61, 58, 91, 93, 60, 62, 34].contains n then false
  else if [45, 95, 46, 126].contains n then false
  else if mode = .encodePath ∧ [36, 38, 43, 44, 47, 58, 59, 61, 63, 64].contains n then n == 63
  else if mode = .encodeFragment ∧ [36, 38, 43, 44, 47, 58, 59, 61, 63, 64].contains n then false
  else if mode = .encodeFragment ∧ [33, 40, 41, 42].contains n then false
  else true

/-- Go `escape(s, mode)`: every byte that should be escaped becomes `%XX`. -/
def escape (s : String) (mode : Encoding) : String :=
  String.mk ((goBytes s).flatMap (fun n =>
    if shouldEscape n mode then ['%', upperhex (n / 16), upperhex (n % 16)]
    else [Char.ofNat n]))

/-- Go `ishex`. -/
def ishex (n : Nat) : Bool :=
  (48 ≤ n && n ≤ 57) || (97 ≤ n && n ≤ 102) || (65 ≤ n && n ≤ 70)

/-- Go `unhex`. -/
def unhex (n : Nat) : Nat :=
  if 48 ≤ n ∧ n ≤ 57 then n - 48
  else if 97 ≤ n ∧ n ≤ 102 then n - 97 + 10
  else if 65 ≤ n ∧ n ≤ 70 then n - 65 + 10
  else 0

/-- Go `unescape(s, mode)` for a path or a fragment, on bytes: every `%XX` becomes the
byte it names; `none` is the `EscapeError` for a `%` not followed by two hex digits. -/
def unescapeBytes : List Nat → Option (List Nat)
  | [] => some []
  | 37 :: h1 :: h2 :: rest =>
    if ishex h1 && ishex h2 then (unescapeBytes rest).map (fun r => (unhex h1 * 16 + unhex h2) :: r)
    else none
  | [37] => none
  | [37, _] => none
  | c :: rest => (unescapeBytes rest).map (fun r => c :: r)

/-- Go `validEncoded(s, mode)`. -/
def validEncoded (s : String) (mode : Encoding) : Bool :=
  (goBytes s).all (fun n =>
    [33, 36, 38, 39, 40, 41, 42, 43, 44, 59, 61, 58, 64].contains n ||
      n == 91 || n == 93 || n == 37 || !shouldEscape n mode)

/-- Go `(*URL).EscapedPath`: `RawPath` when it is a valid encoding of `Path`, otherwise
the default escaping of `Path`. -/
def URL.EscapedPath (u : URL) : String :=
  if u.RawPath ≠ "" ∧ validEncoded u.RawPath .encodePath = true ∧
      unescapeBytes (goBytes u.RawPath) = some (goBytes u.Path) then u.RawPath
  else if u.Path = "*" then "*"
  else escape u.Path .encodePath

/-- Go `(*URL).EscapedFragment`. -/
def URL.EscapedFragment (u : URL) : String :=
  if u.RawFragment ≠ "" ∧ validEncoded u.RawFragment .encodeFragment = true ∧
      unescapeBytes (goBytes u.RawFragment) = some (goBytes u.Fragment) then u.RawFragment
  else escape u.Fragment .encodeFragment

/-- The text before the first `sep`, the text after it, and whether `sep` occurs
(`strings.Cut` for a one-byte separator). -/
def cut (sep : Char) : List Char → List Char × List Char × Bool
  | [] => ([], [], false)
  | c :: cs =>
    if c = sep then ([], cs, true)
    else ((c :: (cut sep cs).1), (cut sep cs).2.1, (cut sep cs).2.2)

/-- Go `(*URL).String` for a URL without user information. -/
def URL.String (u : URL) : String :=
  let scheme := if u.Scheme ≠ "" then u.Scheme ++ ":" else ""
  let body :=
    if u.Opaque ≠ "" then u.Opaque
    else
      let authority :=
        if u.Scheme ≠ "" ∨ u.Host ≠ "" then
          if u.OmitHost = true ∧ u.Host = "" then ""
          else (if u.Host ≠ "" ∨ u.Path ≠ "" then "//" else "") ++
            (if u.Host ≠ "" then escape u.Host .encodeHost else "")
        else ""
      let path := u.EscapedPath
      let slash := if path ≠ "" ∧ path.data.head? ≠ some '/' ∧ u.Host ≠ "" then "/" else ""
      let dot :=
        if scheme ++ authority ++ slash = "" ∧ (cut '/' path.data).1.contains ':' then "./"
        else ""
      authority ++ slash ++ dot ++ path
  let query := if u.ForceQuery = true ∨ u.RawQuery ≠ "" then "?" ++ u.RawQuery else ""
  let fragment := if u.Fragment ≠ "" then "#" ++ u.EscapedFragment else ""
  scheme ++ body ++ query ++ fragment

/-- The position after the last occurrence of `c`, or 0 when there is none
(`strings.LastIndex` plus one). -/
def lastIndex1 (c : Char) (l : List Char) : Nat :=
  (l.foldl (fun (acc : Nat × Nat) x => (if x = c then acc.2 + 1 else acc.1, acc.2 + 1)) (0, 0)).1

/-- Go `removeEmptyPort` of `net/http`: a host that ends in a port colon with no port
loses the colon. -/
def removeEmptyPort (host : String) : String :=
  if lastIndex1 ':' host.data > lastIndex1 ']' host.data ∧ host.data.getLast? = some ':' then
    String.mk host.data.dropLast
  else host

/-- The scan of `getScheme`: the scheme and what follows its colon, or no scheme and
the whole text; a colon in first position is an error. -/
def getScheme (raw : List Char) : Nat → List Char → Except String (List Char × List Char)
  | _, [] => .ok ([], raw)
  | i, c :: cs =>
    let n := c.toNat
    if (97 ≤ n && n ≤ 122) || (65 ≤ n && n ≤ 90) then getScheme raw (i + 1) cs
    else if (48 ≤ n && n ≤ 57) || n == 43 || n == 45 || n == 46 then
      if i = 0 then .ok ([], raw) else getScheme raw (i + 1) cs
    else if n == 58 then
      if i = 0 then .error "missing protocol scheme" else .ok (raw.take i, cs)
    else .ok ([], raw)

/-- Go `strings.ToLower` on ASCII text. -/
def toLowerASCII (l : List Char) : List Char :=
  l.map (fun c => if 65 ≤ c.toNat ∧ c.toNat ≤ 90 then Char.ofNat (c.toNat + 32) else c)

/-- The host of an authority as `parseAuthority` gives it, for an authority that is a
plain host with an optional port.  User information, a bracketed host and a `%` in the
host are not covered and are refused. -/
def parseHost (authority : List Char) : Except String String :=
  if authority.contains '@' then .error "net/url: user information is not covered"
  else if authority.head? = some '[' then .error "net/url: bracketed host is not covered"
  else if authority.contains '%' then .error "net/url: escape in host is not covered"
  else if authority.contains ':' ∧
      ¬ ((authority.drop (lastIndex1 ':' authority)).all
        (fun c => 48 ≤ c.toNat && c.toNat ≤ 57) = true) then
    .error "net/url: invalid port after host"
  else if authority.any (fun c => c.toNat < 128 && shouldEscape c.toNat .encodeHost) then
    .error "net/url: invalid character in host name"
  else .ok (String.mk authority)

/-- The decoded text and the raw hint `setPath` and `setFragment` store for a raw text:
the text with its escapes decoded, and the raw text itself unless it is the default
escaping of the decoded text.  Escapes that decode to bytes outside ASCII are not
covered and are refused. -/
def setEscaped (raw : List Char) (mode : Encoding) : Except String (String × String) :=
  match unescapeBytes (goBytes (String.mk raw)) with
  | none => .error "invalid URL escape"
  | some bytes =>
    if raw.contains '%' ∧ bytes.any (fun n => 128 ≤ n) = true then
      .error "net/url: escape of a byte outside ASCII is not covered"
    else
      let text := if raw.contains '%' then String.mk (bytes.map Char.ofNat) else String.mk raw
      .ok (text, if escape text mode = String.mk raw then "" else String.mk raw)

/-- Go `url.Parse`, for the URLs `parseHost` and `setEscaped` cover: the fragment is cut
off, a control character is refused, the scheme is split off and lower-cased, the query
is what follows the first `?`, a rootless text after a scheme is opaque, the authority
is what stands between `//` and the next `/`, and the rest is the path. -/
def urlParse (rawURL : String) : Except String URL :=
  let u := (cut '#' rawURL.data).1
  let frag := (cut '#' rawURL.data).2.1
  if u.any (fun c => c.toNat < 32 || c.toNat == 127) then
    .error "net/url: invalid control character in URL"
  else if u = ['*'] then
    match setEscaped frag .encodeFragment with
    | .error e => .error e
    | .ok f =>
      .ok { Scheme := "", Opaque := "", Host := "", Path := "*", RawPath := "", OmitHost := false,
            ForceQuery := false, RawQuery := "", Fragment := f.1, RawFragment := f.2 }
  else
    match getScheme u 0 u with
    | .error e => .error e
    | .ok (scheme, rest0) =>
      let forceQuery : Bool := rest0.getLast? = some '?' ∧ rest0.count '?' = 1
      let rest1 := if forceQuery then rest0.dropLast else (cut '?' rest0).1
      let rawQuery := if forceQuery then [] else (cut '?' rest0).2.1
      if rest1.head? ≠ some '/' ∧ scheme ≠ [] then
        match setEscaped frag .encodeFragment with
        | .error e => .error e
        | .ok f =>
          .ok { Scheme := String.mk (toLowerASCII scheme), Opaque := String.mk rest1, Host := "",
                Path := "", RawPath := "", OmitHost := false, ForceQuery := forceQuery,
                RawQuery := String.mk rawQuery, Fragment := f.1, RawFragment := f.2 }
      else if rest1.head? ≠ some '/' ∧ (cut '/' rest1).1.contains ':' then
        .error "first path segment in URL cannot contain colon"
      else
        let hasAuthority : Bool :=
          (scheme ≠ [] ∨ rest1.take 3 ≠ ['/', '/', '/']) ∧ rest1.take 2 = ['/', '/']
        let authority := if hasAuthority then (cut '/' (rest1.drop 2)).1 else []
        let rest2 :=
          if hasAuthority then
            (if (cut '/' (rest1.drop 2)).2.2 then '/' :: (cut '/' (rest1.drop 2)).2.1 else [])
          else rest1
        match (if hasAuthority then parseHost authority else .ok "") with
        | .error e => .error e
        | .ok host =>
          match setEscaped rest2 .encodePath with
          | .error e => .error e
          | .ok p =>
            match setEscaped frag .encodeFragment with
            | .error e => .error e
            | .ok f =>
              .ok { Scheme := String.mk (toLowerASCII scheme), Opaque := "", Host := host,
                    Path := p.1, RawPath := p.2,
                    OmitHost := !hasAuthority && scheme ≠ [] && rest1.head? = some '/',
                    ForceQuery := forceQuery, RawQuery := String.mk rawQuery,
                    Fragment := f.1, RawFragment := f.2 }

/-! ## encoding/json: marshalling a `RaydiumRequest` -/

/-- The digit of `"0123456789abcdef"` at index `n`. -/
def lowerhex (n : Nat) : Char :=
  if n < 10 then Char.ofNat (48 + n) else Char.ofNat (87 + n)

/-- The JSON text of one character of a Go string under `json.Marshal` (HTML escaping
on): quote and backslash get a backslash, the control characters `\b \f \n \r \t` their
short form, every other byte below 0x20 and `<`, `>`, `&` the form `\u00XX`, and the
two line separators U+2028 and U+2029 the form `\u202X`. -/
def jsonChar (c : Char) : List Char :=
  let n := c.toNat
  if n = 34 ∨ n = 92 then ['\\', c]
  else if n = 8 then ['\\', 'b']
  else if n = 12 then ['\\', 'f']
  else if n = 10 then ['\\', 'n']
  else if n = 13 then ['\\', 'r']
  else if n = 9 then ['\\', 't']
  else if n < 32 ∨ n = 60 ∨ n = 62 ∨ n = 38 then
    ['\\', 'u', '0', '0', lowerhex (n / 16), lowerhex (n % 16)]
  else if n = 8232 ∨ n = 8233 then ['\\', 'u', '2', '0', '2', lowerhex (n % 16)]
  else [c]

/-- The JSON text `json.Marshal` writes for a Go string. -/
def jsonString (s : String) : String :=
  "\"" ++ String.mk (s.data.flatMap jsonChar) ++ "\""

/-- The JSON text of a `*string`: `null` for a nil pointer. -/
def jsonStringPtr : Option String → String
  | none => "null"
  | some s => jsonString s

/-- The JSON text of a `map[string]string`: `null` for a nil map, otherwise an object
whose members come in the order of the sorted keys. -/
def jsonStringMap : Option GoMap → String
  | none => "null"
  | some m =>
    "\x7b" ++ ",".intercalate ((sortByKey m).map (fun e => jsonString e.1 ++ ":" ++ jsonString e.2))
      ++ "\x7d"

/-! ## The types of `raydium.go` -/

/-- The request descriptor `RaydiumRequest`. -/
structure RaydiumRequest where
  Data : Option String
  QueryParams : Option String
  Headers : Option GoMap
  deriving DecidableEq, Repr

/-- The quote query `RaydiumQuoteRequest`. -/
structure RaydiumQuoteRequest where
  InputMint : String
  OutputMint : String
  Amount : Int
  SlippageBps : Int
  TxVersion : String
  deriving DecidableEq, Repr

/-- The JSON object `json.Marshal` writes for a `RaydiumRequest`: the struct has no
`json` tags, so the three exported fields appear under their Go names, in declaration
order. -/
def marshalRaydiumRequest (data : RaydiumRequest) : String :=
  "\x7b\"Data\":" ++ jsonStringPtr data.Data ++ ",\"QueryParams\":" ++
    jsonStringPtr data.QueryParams ++ ",\"Headers\":" ++ jsonStringMap data.Headers ++ "\x7d"

/-- Go `json.Marshal(data)` for a `RaydiumRequest`.  Strings, string pointers and string
maps always marshal, so the error result is never taken. -/
def Marshal (E : Type) (data : RaydiumRequest) : Except E String :=
  .ok (marshalRaydiumRequest data)

/-- The `query.Values(data)` of go-querystring for a `RaydiumQuoteRequest`: one entry per
field under the name of its `url` tag (no field is `omitempty`), the value printed with
`fmt.Sprint`.  A struct argument is always accepted, so the error result is never
taken. -/
def queryValues (E : Type) (data : RaydiumQuoteRequest) : Except E Values :=
  .ok [("inputMint", [data.InputMint]), ("outputMint", [data.OutputMint]),
    ("amount", [formatInt data.Amount]), ("slippageBps", [formatInt data.SlippageBps]),
    ("txVersion", [data.TxVersion])]

/-- A transport client, `*httpclient.Client`: an identity and its HTTP timeout. -/
structure Client where
  id : Nat
  timeoutMs : Nat
  deriving DecidableEq, Repr

/-- A `sync.Pool` seen as a free list with a constructor: the instances put back and
not yet taken, and the number of instances `New` has made. -/
structure Pool where
  free : List Client
  made : Nat
  deriving DecidableEq, Repr

/-- The `New` function `NewRaydium` installs: a client with a timeout of
`5000 * time.Millisecond`. -/
def Pool.New (p : Pool) : Client :=
  { id := p.made, timeoutMs := 5000 }

/-- Go `pool.Get()`: an instance of the free list when there is one, otherwise a new
one from `New`. -/
def Pool.Get (p : Pool) : Client × Pool :=
  match p.free with
  | c :: rest => (c, { p with free := rest })
  | [] => (p.New, { p with made := p.made + 1 })

/-- The client `Raydium`. -/
structure Raydium where
  BaseUrl : String
  pool : Pool
  deriving DecidableEq, Repr

/-- Go `NewRaydium`. -/
def NewRaydium (baseUrl : String) : Raydium :=
  { BaseUrl := baseUrl, pool := { free := [], made := 0 } }

/-- An outgoing `*http.Request` as the builder leaves it: the method, the parsed URL,
the body and the header. -/
structure Request where
  method : String
  url : URL
  body : String
  header : Header
  deriving DecidableEq, Repr

/-- A value of type `any` handed in as the result container: the nil interface, a
pointer to a variable of type `elem` (or the nil pointer of that type), or a value of
a type that is not a pointer. -/
inductive GoAny (T V : Type) where
  | nil
  | pointer (elem : T) (addr : Option Nat)
  | value (ty : T) (v : V)
  deriving DecidableEq, Repr

/-- The variables pointers point to: the value in each cell, and the first address
not yet allocated. -/
structure Heap (V : Type) where
  cells : Nat → V
  next : Nat

/-- The heap with cell `a` holding `v`. -/
def Heap.store {V : Type} (h : Heap V) (a : Nat) (v : V) : Heap V :=
  { h with cells := fun i => if i = a then v else h.cells i }

/-- Allocation of a new variable holding `v`: its address and the new heap. -/
def Heap.alloc {V : Type} (h : Heap V) (v : V) : Nat × Heap V :=
  (h.next, { cells := fun i => if i = h.next then v else h.cells i, next := h.next + 1 })

/-- The behaviour of what `raydium.go` calls and does not define: errors `E`, responses
`R`, Go types `T` and Go values `V`. -/
structure World (E R T V : Type) where
  /-- The error of `url.Parse` inside `http.NewRequest`, when the URL does not parse. -/
  parseURL : String → Option E
  /-- The URL `url.Parse` gives, when the URL parses. -/
  parsedURL : String → URL
  /-- The order in which a `range` over the map visits its entries. -/
  rangeOrder : GoMap → GoMap
  /-- Every entry is visited once. -/
  rangeOrder_perm : ∀ m, List.Perm (rangeOrder m) m
  /-- The round trip `client.Do(req)`. -/
  Do : Client → Request → Except E R
  /-- The read `io.ReadAll(rsp.Body)`. -/
  ReadAll : R → Except E String
  /-- `json.Unmarshal` of a body into the variable of type `t` at an address: the heap
  afterwards (the decoder writes the variable and whatever it reaches through pointers,
  maps and slices the variable holds, and may allocate), and the error. -/
  Unmarshal : String → T → Nat → Heap V → Heap V × Option E
  /-- `json.Unmarshal` of a body into an `interface{}` variable whose content is not a
  pointer to descend into: the error. -/
  UnmarshalAny : String → Option E
  /-- The body is the JSON literal `null`. -/
  isNull : String → Bool
  /-- The kind of the type is `reflect.Pointer`. -/
  isPointer : T → Bool
  /-- The call `json.NewDecoder(rsp.Body).Decode(p)` for `p` a pointer to the variable
  of type `t` at an address: the heap afterwards, and the error. -/
  Decode : R → T → Nat → Heap V → Heap V × Option E
  /-- The error `Decode(v)` returns for `v` a nil pointer or not a pointer: a read or
  syntax error, or else an `InvalidUnmarshalError`. -/
  DecodeInvalid : R → GoAny T V → E
  /-- The zero value of a type. -/
  zero : T → V

/-- How a call ends: it returns an error or nil, or it panics. -/
inductive Outcome (E : Type) where
  | returned (err : Option E)
  | panicked
  deriving DecidableEq, Repr

/-- Where a decoder stores: the variable at an address, the callee's own copy of the
`any`, or nowhere (the decoder refuses a nil pointer). -/
inductive Target where
  | pointee (addr : Nat)
  | localCopy
  | nilPointer
  deriving DecidableEq, Repr

/-- What a call does to the outside, in order. -/
inductive Event where
  | poolGet (c : Client) (fromNew : Bool)
  | send (c : Client) (req : Request)
  | readAll
  | decode (target : Target)
  deriving DecidableEq, Repr

/-- The result of one call: how it ends, the pool and the heap afterwards, and what it
did. -/
structure Run (E V : Type) where
  outcome : Outcome E
  pool : Pool
  heap : Heap V
  trace : List Event

/-! ## The operations of `raydium.go` -/

section Operations

variable {E R T V : Type}

/-- The URL `http.NewRequest` stores for a URL string that parses: the result of
`url.Parse`, its host passed through `removeEmptyPort`. -/
def newRequestURL (w : World E R T V) (url : String) : URL :=
  { w.parsedURL url with Host := removeEmptyPort (w.parsedURL url).Host }

/-- Go `http.NewRequest(method, url, body)`: it fails when the URL does not parse and
otherwise gives a request with the parsed URL and an empty header. -/
def NewRequest (w : World E R T V) (method url body : String) : Except E Request :=
  match w.parseURL url with
  | some e => .error e
  | none => .ok { method := method, url := newRequestURL w url, body := body, header := [] }

/-- The loop `for key, value := range headers { req.Header.Set(key, value) }`. -/
def setHeaders (w : World E R T V) (header : Header) (headers : GoMap) : Header :=
  (w.rangeOrder headers).foldl (fun h e => Header.Set h e.1 e.2) header

/-- The URL both builders compute: `fmt.Sprintf("%s%s", m.BaseUrl, path)`, then
`url + "?" + *data.QueryParams` when `QueryParams` is not nil. -/
def requestURL (baseUrl path : String) (data : RaydiumRequest) : String :=
  let url := baseUrl ++ path
  match data.QueryParams with
  | some q => url ++ "?" ++ q
  | none => url

/-- The request `getAndUnmarshalJson` builds (lines 101-126). -/
def getRequest (w : World E R T V) (baseUrl path : String) (data : RaydiumRequest) :
    Except E Request :=
  let url := requestURL baseUrl path data
  match Marshal E data with
  | .error err => .error err
  | .ok jB =>
    let dataReader := if data.Data.isSome then jB else ""
    match NewRequest w "GET" url dataReader with
    | .error err => .error err
    | .ok req =>
      match data.Headers with
      | some headers => .ok { req with header := setHeaders w req.header headers }
      | none => .ok req

/-- The request `postAndUnmarshalJson` builds (lines 150-177). -/
def postRequest (w : World E R T V) (baseUrl path : String) (data : RaydiumRequest) :
    Except E Request :=
  let url := requestURL baseUrl path data
  match Marshal E data with
  | .error err => .error err
  | .ok jB =>
    let dataReader := if data.Data.isSome then jB else ""
    match NewRequest w "POST" url dataReader with
    | .error err => .error err
    | .ok req =>
      let h1 := Header.Set req.header "content-type" "application/x-www-form-urlencoded"
      let h2 := Header.Set h1 "Cache-Content" "no-cache"
      match data.Headers with
      | some headers => .ok { req with header := setHeaders w h2 headers }
      | none => .ok { req with header := h2 }

/-- The call `json.Unmarshal(body, &res)` of the GET path, `res` being the callee's own
`any`.  The decoder descends from the interface into a pointer it holds when that
pointer is not nil, except that for the literal `null` it only does so when the
pointee is itself a pointer; otherwise it stores into the interface, that is into the
callee's copy. -/
def unmarshalAny (w : World E R T V) (heap : Heap V) (body : String) (res : GoAny T V) :
    Heap V × Option E × Target :=
  match res with
  | .pointer t (some a) =>
    if w.isNull body && !w.isPointer t then (heap, w.UnmarshalAny body, .localCopy)
    else ((w.Unmarshal body t a heap).1, (w.Unmarshal body t a heap).2, .pointee a)
  | _ => (heap, w.UnmarshalAny body, .localCopy)

/-- Go `getPointer`: the argument itself when its kind is `reflect.Ptr`, otherwise
`reflect.New` of its type; `none` is the panic of `reflect.Value.Type` on the zero
`Value` that `reflect.ValueOf(nil)` is. -/
def getPointer (w : World E R T V) (heap : Heap V) (v : GoAny T V) :
    Option (GoAny T V × Heap V) :=
  match v with
  | .nil => none
  | .pointer t a => some (.pointer t a, heap)
  | .value t _ => some (.pointer t (some (heap.alloc (w.zero t)).1), (heap.alloc (w.zero t)).2)

/-- The call `json.NewDecoder(rsp.Body).Decode(rcv)` of the POST path, `rcv` being what
`getPointer` returned. -/
def decodeInto (w : World E R T V) (heap : Heap V) (rsp : R) (rcv : GoAny T V) :
    Heap V × Option E × Target :=
  match rcv with
  | .pointer t (some a) => ((w.Decode rsp t a heap).1, (w.Decode rsp t a heap).2, .pointee a)
  | v => (heap, some (w.DecodeInvalid rsp v), .nilPointer)

/-- Go `(*Raydium).getAndUnmarshalJson`. -/
def getAndUnmarshalJson (w : World E R T V) (m : Raydium) (heap : Heap V) (res : GoAny T V)
    (path : String) (data : RaydiumRequest) : Run E V :=
  let client := m.pool.Get.1
  let pool := m.pool.Get.2
  let got := Event.poolGet client m.pool.free.isEmpty
  match getRequest w m.BaseUrl path data with
  | .error err => { outcome := .returned (some err), pool := pool, heap := heap, trace := [got] }
  | .ok req =>
    match w.Do client req with
    | .error err =>
      { outcome := .returned (some err), pool := pool, heap := heap,
        trace := [got, .send client req] }
    | .ok rsp =>
      match w.ReadAll rsp with
      | .error err =>
        { outcome := .returned (some err), pool := pool, heap := heap,
          trace := [got, .send client req, .readAll] }
      | .ok body =>
        let d := unmarshalAny w heap body res
        { outcome := .returned d.2.1, pool := pool, heap := d.1,
          trace := [got, .send client req, .readAll, .decode d.2.2] }

/-- Go `(*Raydium).postAndUnmarshalJson`. -/
def postAndUnmarshalJson (w : World E R T V) (m : Raydium) (heap : Heap V) (res : GoAny T V)
    (path : String) (data : RaydiumRequest) : Run E V :=
  let client := m.pool.Get.1
  let pool := m.pool.Get.2
  let got := Event.poolGet client m.pool.free.isEmpty
  match postRequest w m.BaseUrl path data with
  | .error err => { outcome := .returned (some err), pool := pool, heap := heap, trace := [got] }
  | .ok req =>
    match getPointer w heap res with
    | none => { outcome := .panicked, pool := pool, heap := heap, trace := [got] }
    | some (rcv, heap1) =>
      match w.Do client req with
      | .error err =>
        { outcome := .returned (some err), pool := pool, heap := heap1,
          trace := [got, .send client req] }
      | .ok rsp =>
        let d := decodeInto w heap1 rsp rcv
        { outcome := .returned d.2.1, pool := pool, heap := d.1,
          trace := [got, .send client req, .decode d.2.2] }

/-- Go `(*Raydium).Get`. -/
def Get (w : World E R T V) (m : Raydium) (heap : Heap V) (res : GoAny T V)
    (path : String) (data : RaydiumRequest) : Run E V :=
  getAndUnmarshalJson w m heap res path data

/-- Go `(*Raydium).Post`. -/
def Post (w : World E R T V) (m : Raydium) (heap : Heap V) (res : GoAny T V)
    (path : String) (data : RaydiumRequest) : Run E V :=
  postAndUnmarshalJson w m heap res path data

/-- The user-agent string `SwapQuote` writes. -/
def userAgent : String :=
  "Mozilla/5.0 (Macintosh; Intel Mac OS X 10_15_7) AppleWebKit/537.36 (KHTML, like Gecko) Chrome/125.0.0.0 Safari/537.36"

/-- The descriptor `SwapQuote` hands to `getAndUnmarshalJson` for a non-nil header map:
the two writes into the caller's map, then the encoded query. -/
def swapQuoteRequest (qs : Values) (headers : GoMap) : RaydiumRequest :=
  let headers1 := GoMap.assign headers "User-Agent" userAgent
  let headers2 := GoMap.assign headers1 "Cache-Content" "no-cache"
  let jsonStr := Values.Encode qs
  { Data := none, QueryParams := some jsonStr, Headers := some headers2 }

/-- The result of `SwapQuote`: the run, and the caller's header map afterwards. -/
structure SwapRun (E V : Type) where
  run : Run E V
  headers : Option GoMap

/-- Go `(*Raydium).SwapQuote`.  The write `headers["User-Agent"] = ...` into a nil map
panics. -/
def SwapQuote (w : World E R T V) (m : Raydium) (heap : Heap V) (res : GoAny T V)
    (headers : Option GoMap) (data : RaydiumQuoteRequest) : SwapRun E V :=
  match queryValues E data with
  | .error e =>
    { run := { outcome := .returned (some e), pool := m.pool, heap := heap, trace := [] },
      headers := headers }
  | .ok qs =>
    match headers with
    | none =>
      { run := { outcome := .panicked, pool := m.pool, heap := heap, trace := [] },
        headers := none }
    | some h =>
      let d := swapQuoteRequest qs h
      { run := getAndUnmarshalJson w m heap res "/compute/swap-base-in" d,
        headers := d.Headers }

/-- The request a run handed to the transport client, when it did. -/
def Run.sent (r : Run E V) : Option Request :=
  r.trace.findSome? (fun ev => match ev with
    | .send _ req => some req
    | _ => none)

/-- The store a run's decoder was given, when the decoder ran. -/
def Run.target (r : Run E V) : Option Target :=
  r.trace.findSome? (fun ev => match ev with
    | .decode t => some t
    | _ => none)

/-- The clients a run took from the pool. -/
def Run.acquired (r : Run E V) : List Client :=
  r.trace.filterMap (fun ev => match ev with
    | .poolGet c _ => some c
    | _ => none)

/-- One call of the public API, with the caller's heap at that moment. -/
inductive Call (T V : Type) where
  | get (heap : Heap V) (res : GoAny T V) (path : String) (data : RaydiumRequest)
  | post (heap : Heap V) (res : GoAny T V) (path : String) (data : RaydiumRequest)
  | swapQuote (heap : Heap V) (res : GoAny T V) (headers : Option GoMap)
      (data : RaydiumQuoteRequest)

/-- The run of one call on a client. -/
def Call.run (w : World E R T V) (m : Raydium) : Call T V → Run E V
  | .get heap res path data => Get w m heap res path data
  | .post heap res path data => Post w m heap res path data
  | .swapQuote heap res headers data => (SwapQuote w m heap res headers data).run

/-- The runs of a sequence of calls on one client, each call finding the pool as the
call before it left it. -/
def runCalls (w : World E R T V) (m : Raydium) : List (Call T V) → List (Run E V)
  | [] => []
  | c :: cs => c.run w m :: runCalls w { m with pool := (c.run w m).pool } cs

end Operations

/-! ## A concrete world -/

/-- The Go types of the concrete world: the struct `RaydiumData` (two of its fields
are kept) and `map[string]string`. -/
inductive DemoTy where
  | quote
  | dict
  deriving DecidableEq, Repr

/-- The Go values of the concrete world. -/
inductive DemoVal where
  | quote (success : Bool) (outputAmount : String)
  | dict (m : Option GoMap)
  deriving DecidableEq, Repr

/-- The JSON decoder of the concrete world knows two bodies: the literal `null` (a map
becomes nil, a struct is left as it is) and the empty object (a nil map becomes an
empty one, anything else is left as it is).  It reports any other body as a syntax
error, so the world is only used with these two. -/
def demoDecode (body : String) (t : DemoTy) (v : DemoVal) : DemoVal × Option String :=
  if body = "null" then
    match t with
    | .dict => (.dict none, none)
    | .quote => (v, none)
  else if body = "\x7b\x7d" then
    match v with
    | .dict none => (.dict (some []), none)
    | _ => (v, none)
  else (v, some "invalid character")

/-- A world in which `http.NewRequest` parses a URL as `urlParse` does, a `range`
visits the entries in the order they are listed, every round trip succeeds with the
response `answer`, and the decoder is `demoDecode`, which writes one variable. -/
def demoWorld (answer : String) : World String String DemoTy DemoVal where
  parseURL := fun u =>
    match urlParse u with
    | .error e => some e
    | .ok _ => none
  parsedURL := fun u =>
    match urlParse u with
    | .error _ =>
      { Scheme := "", Opaque := "", Host := "", Path := "", RawPath := "", OmitHost := false,
        ForceQuery := false, RawQuery := "", Fragment := "", RawFragment := "" }
    | .ok x => x
  rangeOrder := fun m => m
  rangeOrder_perm := fun m => List.Perm.refl m
  Do := fun _ _ => .ok answer
  ReadAll := fun r => .ok r
  Unmarshal := fun body t a heap =>
    (heap.store a (demoDecode body t (heap.cells a)).1, (demoDecode body t (heap.cells a)).2)
  UnmarshalAny := fun body =>
    if body = "null" ∨ body = "\x7b\x7d" then none
    else some "invalid character"
  isNull := fun body => body == "null"
  isPointer := fun _ => false
  Decode := fun rsp t a heap =>
    (heap.store a (demoDecode rsp t (heap.cells a)).1, (demoDecode rsp t (heap.cells a)).2)
  DecodeInvalid := fun _ _ => "json: Unmarshal(nil)"
  zero := fun t =>
    match t with
    | .quote => .quote false ""
    | .dict => .dict none

/-- A heap whose cells all hold the zero struct, except cell 0, which holds a map with
one entry; two cells are allocated. -/
def demoHeap : Heap DemoVal where
  cells := fun a => if a = 0 then .dict (some [("old", "1")]) else .quote false ""
  next := 2

/-! ## Lemmas on the builders -/

section Lemmas

variable {E R T V : Type}

/-- The GET builder fails exactly when the URL does not parse, and otherwise gives the
request read off lines 101-126. -/
theorem getRequest_eq (w : World E R T V) (baseUrl path : String) (data : RaydiumRequest) :
    getRequest w baseUrl path data =
      match w.parseURL (requestURL baseUrl path data) with
      | some e => .error e
      | none => .ok
          { method := "GET", url := newRequestURL w (requestURL baseUrl path data),
            body := if data.Data.isSome then marshalRaydiumRequest data else "",
            header := match data.Headers with
              | some h => setHeaders w [] h
              | none => [] } := by
  obtain ⟨d, q, h⟩ := data
  simp only [getRequest, Marshal, NewRequest]
  cases hp : w.parseURL (requestURL baseUrl path ⟨d, q, h⟩) <;> cases h <;> simp [hp]

/-- The POST builder fails exactly when the URL does not parse, and otherwise gives the
request read off lines 150-177. -/
theorem postRequest_eq (w : World E R T V) (baseUrl path : String) (data : RaydiumRequest) :
    postRequest w baseUrl path data =
      match w.parseURL (requestURL baseUrl path data) with
      | some e => .error e
      | none => .ok
          { method := "POST", url := newRequestURL w (requestURL baseUrl path data),
            body := if data.Data.isSome then marshalRaydiumRequest data else "",
            header := match data.Headers with
              | some h =>
                setHeaders w (Header.Set (Header.Set [] "content-type"
                  "application/x-www-form-urlencoded") "Cache-Content" "no-cache") h
              | none =>
                Header.Set (Header.Set [] "content-type"
                  "application/x-www-form-urlencoded") "Cache-Content" "no-cache" } := by
  obtain ⟨d, q, h⟩ := data
  simp only [postRequest, Marshal, NewRequest]
  cases hp : w.parseURL (requestURL baseUrl path ⟨d, q, h⟩) <;> cases h <;> simp [hp]

/-- The GET path when the builder fails. -/
theorem get_build_error (w : World E R T V) (m : Raydium) (heap : Heap V) (res : GoAny T V)
    (path : String) (data : RaydiumRequest) (e : E)
    (hreq : getRequest w m.BaseUrl path data = .error e) :
    getAndUnmarshalJson w m heap res path data =
      { outcome := .returned (some e), pool := m.pool.Get.2, heap := heap,
        trace := [.poolGet m.pool.Get.1 m.pool.free.isEmpty] } := by
  simp only [getAndUnmarshalJson, hreq]

/-- The GET path when the round trip fails. -/
theorem get_do_error (w : World E R T V) (m : Raydium) (heap : Heap V) (res : GoAny T V)
    (path : String) (data : RaydiumRequest) (req : Request) (e : E)
    (hreq : getRequest w m.BaseUrl path data = .ok req)
    (hdo : w.Do m.pool.Get.1 req = .error e) :
    getAndUnmarshalJson w m heap res path data =
      { outcome := .returned (some e), pool := m.pool.Get.2, heap := heap,
        trace := [.poolGet m.pool.Get.1 m.pool.free.isEmpty, .send m.pool.Get.1 req] } := by
  simp only [getAndUnmarshalJson, hreq, hdo]

/-- The GET path when reading the response body fails. -/
theorem get_read_error (w : World E R T V) (m : Raydium) (heap : Heap V) (res : GoAny T V)
    (path : String) (data : RaydiumRequest) (req : Request) (rsp : R) (e : E)
    (hreq : getRequest w m.BaseUrl path data = .ok req)
    (hdo : w.Do m.pool.Get.1 req = .ok rsp) (hrd : w.ReadAll rsp = .error e) :
    getAndUnmarshalJson w m heap res path data =
      { outcome := .returned (some e), pool := m.pool.Get.2, heap := heap,
        trace := [.poolGet m.pool.Get.1 m.pool.free.isEmpty, .send m.pool.Get.1 req,
          .readAll] } := by
  simp only [getAndUnmarshalJson, hreq, hdo, hrd]

/-- The GET path when the decoder is reached. -/
theorem get_decoded (w : World E R T V) (m : Raydium) (heap : Heap V) (res : GoAny T V)
    (path : String) (data : RaydiumRequest) (req : Request) (rsp : R) (body : String)
    (hreq : getRequest w m.BaseUrl path data = .ok req)
    (hdo : w.Do m.pool.Get.1 req = .ok rsp) (hrd : w.ReadAll rsp = .ok body) :
    getAndUnmarshalJson w m heap res path data =
      { outcome := .returned (unmarshalAny w heap body res).2.1, pool := m.pool.Get.2,
        heap := (unmarshalAny w heap body res).1,
        trace := [.poolGet m.pool.Get.1 m.pool.free.isEmpty, .send m.pool.Get.1 req,
          .readAll, .decode (unmarshalAny w heap body res).2.2] } := by
  simp only [getAndUnmarshalJson, hreq, hdo, hrd]

/-- The POST path when the builder fails. -/
theorem post_build_error (w : World E R T V) (m : Raydium) (heap : Heap V) (res : GoAny T V)
    (path : String) (data : RaydiumRequest) (e : E)
    (hreq : postRequest w m.BaseUrl path data = .error e) :
    postAndUnmarshalJson w m heap res path data =
      { outcome := .returned (some e), pool := m.pool.Get.2, heap := heap,
        trace := [.poolGet m.pool.Get.1 m.pool.free.isEmpty] } := by
  simp only [postAndUnmarshalJson, hreq]

/-- The POST path when `getPointer` panics. -/
theorem post_panic (w : World E R T V) (m : Raydium) (heap : Heap V) (res : GoAny T V)
    (path : String) (data : RaydiumRequest) (req : Request)
    (hreq : postRequest w m.BaseUrl path data = .ok req)
    (hptr : getPointer w heap res = none) :
    postAndUnmarshalJson w m heap res path data =
      { outcome := .panicked, pool := m.pool.Get.2, heap := heap,
        trace := [.poolGet m.pool.Get.1 m.pool.free.isEmpty] } := by
  simp only [postAndUnmarshalJson, hreq, hptr]

/-- The POST path when the round trip fails. -/
theorem post_do_error (w : World E R T V) (m : Raydium) (heap : Heap V) (res : GoAny T V)
    (path : String) (data : RaydiumRequest) (req : Request) (rcv : GoAny T V)
    (heap1 : Heap V) (e : E)
    (hreq : postRequest w m.BaseUrl path data = .ok req)
    (hptr : getPointer w heap res = some (rcv, heap1))
    (hdo : w.Do m.pool.Get.1 req = .error e) :
    postAndUnmarshalJson w m heap res path data =
      { outcome := .returned (some e), pool := m.pool.Get.2, heap := heap1,
        trace := [.poolGet m.pool.Get.1 m.pool.free.isEmpty, .send m.pool.Get.1 req] } := by
  simp only [postAndUnmarshalJson, hreq, hptr, hdo]

/-- The POST path when the decoder is reached. -/
theorem post_decoded (w : World E R T V) (m : Raydium) (heap : Heap V) (res : GoAny T V)
    (path : String) (data : RaydiumRequest) (req : Request) (rcv : GoAny T V)
    (heap1 : Heap V) (rsp : R)
    (hreq : postRequest w m.BaseUrl path data = .ok req)
    (hptr : getPointer w heap res = some (rcv, heap1))
    (hdo : w.Do m.pool.Get.1 req = .ok rsp) :
    postAndUnmarshalJson w m heap res path data =
      { outcome := .returned (decodeInto w heap1 rsp rcv).2.1, pool := m.pool.Get.2,
        heap := (decodeInto w heap1 rsp rcv).1,
        trace := [.poolGet m.pool.Get.1 m.pool.free.isEmpty, .send m.pool.Get.1 req,
          .decode (decodeInto w heap1 rsp rcv).2.2] } := by
  simp only [postAndUnmarshalJson, hreq, hptr, hdo]

/-- What the GET path sends is the request its builder gave. -/
theorem getAndUnmarshalJson_sent (w : World E R T V) (m : Raydium) (heap : Heap V)
    (res : GoAny T V) (path : String) (data : RaydiumRequest) :
    (getAndUnmarshalJson w m heap res path data).sent =
      (getRequest w m.BaseUrl path data).toOption := by
  cases hreq : getRequest w m.BaseUrl path data with
  | error e => rw [get_build_error w m heap res path data e hreq]; rfl
  | ok req =>
    cases hdo : w.Do m.pool.Get.1 req with
    | error e => rw [get_do_error w m heap res path data req e hreq hdo]; rfl
    | ok rsp =>
      cases hrd : w.ReadAll rsp with
      | error e => rw [get_read_error w m heap res path data req rsp e hreq hdo hrd]; rfl
      | ok body => rw [get_decoded w m heap res path data req rsp body hreq hdo hrd]; rfl

/-- The encoded query of a quote request: the five parameters in the order of their
keys. -/
theorem encode_queryValues (a b c d e : String) :
    Values.Encode [("inputMint", [a]), ("outputMint", [b]), ("amount", [c]),
        ("slippageBps", [d]), ("txVersion", [e])] =
      "amount=" ++ QueryEscape c ++ "&inputMint=" ++ QueryEscape a ++ "&outputMint=" ++
        QueryEscape b ++ "&slippageBps=" ++ QueryEscape d ++ "&txVersion=" ++ QueryEscape e := by
  have hs : sortByKey [("inputMint", [a]), ("outputMint", [b]), ("amount", [c]),
      ("slippageBps", [d]), ("txVersion", [e])] =
      [("amount", [c]), ("inputMint", [a]), ("outputMint", [b]), ("slippageBps", [d]),
        ("txVersion", [e])] := by
    rfl
  have h1 : QueryEscape "amount" = "amount" := by decide
  have h2 : QueryEscape "inputMint" = "inputMint" := by decide
  have h3 : QueryEscape "outputMint" = "outputMint" := by decide
  have h4 : QueryEscape "slippageBps" = "slippageBps" := by decide
  have h5 : QueryEscape "txVersion" = "txVersion" := by decide
  unfold Values.Encode
  rw [hs]
  simp only [List.flatMap_cons, List.flatMap_nil, List.map_cons, List.map_nil, List.append_nil,
    List.singleton_append, String.intercalate, String.intercalate.go, h1, h2, h3, h4, h5]
  simp only [String.append_assoc]
  rfl

/-- Reading a map after a write. -/
theorem lookup_assign (m : GoMap) (k v k1 : String) :
    GoMap.lookup (GoMap.assign m k v) k1 = if k = k1 then some v else GoMap.lookup m k1 := by
  induction m with
  | nil => simp [GoMap.assign, GoMap.lookup]
  | cons e rest ih =>
    unfold GoMap.assign
    by_cases he : e.1 = k
    · by_cases h : k = k1
      · simp [GoMap.lookup, he, h]
      · have h1 : ¬ e.1 = k1 := by rw [he]; exact h
        simp [GoMap.lookup, he, h, h1]
    · by_cases h1 : e.1 = k1
      · have h : ¬ k = k1 := by rw [← h1]; exact fun hk => he hk.symm
        rw [if_neg he, if_neg h]
        simp only [GoMap.lookup, if_pos h1]
      · simp only [GoMap.lookup, if_neg he, if_neg h1]
        exact ih

/-- An entry of a map after a write is the entry written or an entry of before. -/
theorem mem_assign (m : GoMap) (k v : String) (e : String × String)
    (h : e ∈ GoMap.assign m k v) : e = (k, v) ∨ e ∈ m := by
  induction m with
  | nil => simpa [GoMap.assign] using h
  | cons x rest ih =>
    unfold GoMap.assign at h
    by_cases hx : x.1 = k
    · rw [if_pos hx] at h
      rcases List.mem_cons.mp h with h1 | h1
      · exact Or.inl h1
      · exact Or.inr (List.mem_cons_of_mem _ h1)
    · rw [if_neg hx] at h
      rcases List.mem_cons.mp h with h1 | h1
      · exact Or.inr (h1 ▸ List.mem_cons_self _ _)
      · rcases ih h1 with h2 | h2
        · exact Or.inl h2
        · exact Or.inr (List.mem_cons_of_mem _ h2)

/-- The keys of a map after a write: the key written and the keys of before. -/
theorem mem_keys_assign (m : GoMap) (k v k1 : String) :
    k1 ∈ (GoMap.assign m k v).map Prod.fst ↔ k1 = k ∨ k1 ∈ m.map Prod.fst := by
  induction m with
  | nil => simp [GoMap.assign]
  | cons x rest ih =>
    unfold GoMap.assign
    by_cases hx : x.1 = k
    · rw [if_pos hx]
      simp only [List.map_cons, List.mem_cons, hx]
      tauto
    · rw [if_neg hx]
      simp only [List.map_cons, List.mem_cons, ih]
      tauto

/-- A write under a key the map does not hold adds the entry at the end. -/
theorem assign_of_not_mem (m : GoMap) (k v : String) (h : k ∉ m.map Prod.fst) :
    GoMap.assign m k v = m ++ [(k, v)] := by
  induction m with
  | nil => rfl
  | cons x rest ih =>
    simp only [List.map_cons, List.mem_cons, not_or] at h
    unfold GoMap.assign
    rw [if_neg (fun hx => h.1 hx.symm), ih h.2]
    rfl

/-- A value read from a map is the value of one of its entries. -/
theorem mem_of_lookup (m : GoMap) (k v : String) (h : GoMap.lookup m k = some v) :
    (k, v) ∈ m := by
  induction m with
  | nil => simp [GoMap.lookup] at h
  | cons x rest ih =>
    by_cases hx : x.1 = k
    · simp only [GoMap.lookup, if_pos hx, Option.some.injEq] at h
      have : x = (k, v) := Prod.ext hx h
      rw [this]
      exact List.mem_cons_self _ _
    · simp only [GoMap.lookup, if_neg hx] at h
      exact List.mem_cons_of_mem _ (ih h)

/-- Every entry of the header after the loop of `Set` calls was there before or comes
from an entry of the map, its key put in canonical form. -/
theorem mem_foldl_set (l : GoMap) (h : Header) (e : String × String)
    (he : e ∈ l.foldl (fun h x => Header.Set h x.1 x.2) h) :
    e ∈ h ∨ ∃ x ∈ l, CanonicalMIMEHeaderKey x.1 = e.1 ∧ x.2 = e.2 := by
  induction l generalizing h with
  | nil => exact Or.inl he
  | cons x rest ih =>
    rw [List.foldl_cons] at he
    rcases ih _ he with h1 | ⟨y, hy, h2⟩
    · rcases mem_assign _ _ _ _ h1 with h3 | h3
      · right
        refine ⟨x, List.mem_cons_self _ _, ?_, ?_⟩ <;> rw [h3]
      · exact Or.inl h3
    · exact Or.inr ⟨y, List.mem_cons_of_mem _ hy, h2⟩

/-- The keys of the header after the loop of `Set` calls: those of before and the
canonical forms of the keys of the map. -/
theorem mem_keys_foldl_set (l : GoMap) (h : Header) (k : String) :
    k ∈ (l.foldl (fun h x => Header.Set h x.1 x.2) h).map Prod.fst ↔
      k ∈ h.map Prod.fst ∨ ∃ x ∈ l, CanonicalMIMEHeaderKey x.1 = k := by
  induction l generalizing h with
  | nil => simp
  | cons x rest ih =>
    rw [List.foldl_cons, ih, Header.Set, mem_keys_assign]
    constructor
    · rintro ((h1 | h1) | ⟨y, hy, h2⟩)
      · exact Or.inr ⟨x, List.mem_cons_self _ _, h1.symm⟩
      · exact Or.inl h1
      · exact Or.inr ⟨y, List.mem_cons_of_mem _ hy, h2⟩
    · rintro (h1 | ⟨y, hy, h2⟩)
      · exact Or.inl (Or.inr h1)
      · rcases List.mem_cons.mp hy with h3 | h3
        · exact Or.inl (Or.inl (by rw [← h2, h3]))
        · exact Or.inr ⟨y, h3, h2⟩

/-- The value under a canonical key after the loop of `Set` calls: the value of before
when no key of the map has that canonical form, and otherwise the value of an entry of
the map whose key has it. -/
theorem lookup_foldl_set (l : GoMap) (h : Header) (k : String) :
    ((∀ x ∈ l, CanonicalMIMEHeaderKey x.1 ≠ k) →
      GoMap.lookup (l.foldl (fun h x => Header.Set h x.1 x.2) h) k = GoMap.lookup h k) ∧
    ((∃ x ∈ l, CanonicalMIMEHeaderKey x.1 = k) →
      ∃ x ∈ l, CanonicalMIMEHeaderKey x.1 = k ∧
        GoMap.lookup (l.foldl (fun h x => Header.Set h x.1 x.2) h) k = some x.2) := by
  induction l generalizing h with
  | nil => simp
  | cons x rest ih =>
    rw [List.foldl_cons]
    obtain ⟨ih1, ih2⟩ := ih (Header.Set h x.1 x.2)
    constructor
    · intro hno
      rw [ih1 (fun y hy => hno y (List.mem_cons_of_mem _ hy)), Header.Set, lookup_assign,
        if_neg (hno x (List.mem_cons_self _ _))]
    · intro _
      by_cases hrest : ∃ y ∈ rest, CanonicalMIMEHeaderKey y.1 = k
      · obtain ⟨y, hy, hk, hv⟩ := ih2 hrest
        exact ⟨y, List.mem_cons_of_mem _ hy, hk, hv⟩
      · have hno : ∀ y ∈ rest, CanonicalMIMEHeaderKey y.1 ≠ k :=
          fun y hy hk => hrest ⟨y, hy, hk⟩
        have hx : CanonicalMIMEHeaderKey x.1 = k := by
          rename_i hex
          obtain ⟨y, hy, hk⟩ := hex
          rcases List.mem_cons.mp hy with h3 | h3
          · rw [← h3]; exact hk
          · exact absurd hk (hno y h3)
        refine ⟨x, List.mem_cons_self _ _, hx, ?_⟩
        rw [ih1 hno, Header.Set, lookup_assign, if_pos hx]

/-- When the keys of the map are in canonical form and neither repeat nor occur in the
header, the loop of `Set` calls appends the entries of the map in the order visited. -/
theorem foldl_set_of_canonical (l : GoMap) (h : Header)
    (hcanon : ∀ x ∈ l, CanonicalMIMEHeaderKey x.1 = x.1)
    (hnodup : (h.map Prod.fst ++ l.map Prod.fst).Nodup) :
    l.foldl (fun h x => Header.Set h x.1 x.2) h = h ++ l := by
  induction l generalizing h with
  | nil => simp
  | cons x rest ih =>
    have hx : x.1 ∉ h.map Prod.fst := by
      intro hmem
      have := List.nodup_append.mp hnodup
      exact this.2.2 hmem (List.mem_cons_self _ _)
    rw [List.foldl_cons, Header.Set, hcanon x (List.mem_cons_self _ _),
      assign_of_not_mem h x.1 x.2 hx]
    rw [ih (h ++ [(x.1, x.2)]) (fun y hy => hcanon y (List.mem_cons_of_mem _ hy))]
    · simp
    · simpa [List.map_append] using hnodup

/-- The value `Header.Get` reads under a key after the loop over the caller's map: the
value of before when no key of the map has the canonical form of that key, and
otherwise the value of an entry of the map whose key has it. -/
theorem get_setHeaders (w : World E R T V) (h0 : Header) (hs : GoMap) (k : String) :
    ((∀ e ∈ hs, CanonicalMIMEHeaderKey e.1 ≠ CanonicalMIMEHeaderKey k) →
      Header.Get (setHeaders w h0 hs) k = Header.Get h0 k) ∧
    ((∃ e ∈ hs, CanonicalMIMEHeaderKey e.1 = CanonicalMIMEHeaderKey k) →
      ∃ e ∈ hs, CanonicalMIMEHeaderKey e.1 = CanonicalMIMEHeaderKey k ∧
        Header.Get (setHeaders w h0 hs) k = some e.2) := by
  have hmem : ∀ e, e ∈ w.rangeOrder hs ↔ e ∈ hs := fun e => (w.rangeOrder_perm hs).mem_iff
  obtain ⟨h1, h2⟩ := lookup_foldl_set (w.rangeOrder hs) h0 (CanonicalMIMEHeaderKey k)
  constructor
  · intro hno
    exact h1 (fun x hx => hno x ((hmem x).mp hx))
  · rintro ⟨e, he, hk⟩
    obtain ⟨x, hx, hxk, hv⟩ := h2 ⟨e, (hmem e).mpr he, hk⟩
    exact ⟨x, (hmem x).mp hx, hxk, hv⟩

/-- The header of a request the GET builder gave. -/
theorem getRequest_header (w : World E R T V) (baseUrl path : String) (data : RaydiumRequest)
    (req : Request) (hreq : getRequest w baseUrl path data = .ok req) :
    req.header = match data.Headers with
      | some h => setHeaders w [] h
      | none => [] := by
  rw [getRequest_eq] at hreq
  cases hp : w.parseURL (requestURL baseUrl path data) with
  | some e => rw [hp] at hreq; simp at hreq
  | none =>
    rw [hp] at hreq
    simp only [Except.ok.injEq] at hreq
    rw [← hreq]

/-- For a non-nil header map, `SwapQuote` is the GET path on the descriptor
`swapQuoteRequest` makes. -/
theorem swapQuote_run (w : World E R T V) (m : Raydium) (heap : Heap V) (res : GoAny T V)
    (h : GoMap) (data : RaydiumQuoteRequest) :
    (SwapQuote w m heap res (some h) data).run =
      getAndUnmarshalJson w m heap res "/compute/swap-base-in"
        (swapQuoteRequest [("inputMint", [data.InputMint]), ("outputMint", [data.OutputMint]),
          ("amount", [formatInt data.Amount]), ("slippageBps", [formatInt data.SlippageBps]),
          ("txVersion", [data.TxVersion])] h) := by
  simp only [SwapQuote, queryValues]

/-- Every entry of the header after the loop over the caller's map, started from an
empty header, comes from an entry of the map. -/
theorem mem_setHeaders_nil (w : World E R T V) (hs : GoMap) (e : String × String)
    (he : e ∈ setHeaders w [] hs) :
    ∃ x ∈ hs, CanonicalMIMEHeaderKey x.1 = e.1 ∧ x.2 = e.2 := by
  rcases mem_foldl_set (w.rangeOrder hs) [] e he with h1 | ⟨x, hx, h2⟩
  · simp at h1
  · exact ⟨x, (w.rangeOrder_perm hs).mem_iff.mp hx, h2⟩

/-- The GET path returns: it never panics. -/
theorem get_returns (w : World E R T V) (m : Raydium) (heap : Heap V) (res : GoAny T V)
    (path : String) (data : RaydiumRequest) :
    ∃ err, (getAndUnmarshalJson w m heap res path data).outcome = .returned err := by
  cases h1 : getRequest w m.BaseUrl path data with
  | error e => exact ⟨_, by rw [get_build_error w m heap res path data e h1]⟩
  | ok req =>
    cases h2 : w.Do m.pool.Get.1 req with
    | error e => exact ⟨_, by rw [get_do_error w m heap res path data req e h1 h2]⟩
    | ok rsp =>
      cases h3 : w.ReadAll rsp with
      | error e => exact ⟨_, by rw [get_read_error w m heap res path data req rsp e h1 h2 h3]⟩
      | ok body => exact ⟨_, by rw [get_decoded w m heap res path data req rsp body h1 h2 h3]⟩

/-- The POST path returns once `getPointer` has given a pointer. -/
theorem post_returns (w : World E R T V) (m : Raydium) (heap : Heap V) (res : GoAny T V)
    (path : String) (data : RaydiumRequest) (rcv : GoAny T V) (heap1 : Heap V)
    (hp : getPointer w heap res = some (rcv, heap1)) :
    ∃ err, (postAndUnmarshalJson w m heap res path data).outcome = .returned err := by
  cases h1 : postRequest w m.BaseUrl path data with
  | error e => exact ⟨_, by rw [post_build_error w m heap res path data e h1]⟩
  | ok req =>
    cases h2 : w.Do m.pool.Get.1 req with
    | error e => exact ⟨_, by rw [post_do_error w m heap res path data req rcv heap1 e h1 hp h2]⟩
    | ok rsp => exact ⟨_, by rw [post_decoded w m heap res path data req rcv heap1 rsp h1 hp h2]⟩

/-- A GET call that returns nil went through all its stages. -/
theorem get_nil_inv (w : World E R T V) (m : Raydium) (heap : Heap V) (res : GoAny T V)
    (path : String) (data : RaydiumRequest)
    (hnil : (getAndUnmarshalJson w m heap res path data).outcome = .returned none) :
    ∃ req rsp body, getRequest w m.BaseUrl path data = .ok req ∧
      w.Do m.pool.Get.1 req = .ok rsp ∧ w.ReadAll rsp = .ok body ∧
      (getAndUnmarshalJson w m heap res path data).heap = (unmarshalAny w heap body res).1 ∧
      (getAndUnmarshalJson w m heap res path data).target =
        some (unmarshalAny w heap body res).2.2 := by
  cases h1 : getRequest w m.BaseUrl path data with
  | error e =>
    rw [get_build_error w m heap res path data e h1] at hnil
    simp at hnil
  | ok req =>
    cases h2 : w.Do m.pool.Get.1 req with
    | error e =>
      rw [get_do_error w m heap res path data req e h1 h2] at hnil
      simp at hnil
    | ok rsp =>
      cases h3 : w.ReadAll rsp with
      | error e =>
        rw [get_read_error w m heap res path data req rsp e h1 h2 h3] at hnil
        simp at hnil
      | ok body =>
        refine ⟨req, rsp, body, rfl, h2, h3, ?_, ?_⟩
        · rw [get_decoded w m heap res path data req rsp body h1 h2 h3]
        · rw [get_decoded w m heap res path data req rsp body h1 h2 h3]
          rfl

/-- A POST call that returns nil went through all its stages. -/
theorem post_nil_inv (w : World E R T V) (m : Raydium) (heap : Heap V) (res : GoAny T V)
    (path : String) (data : RaydiumRequest) (rcv : GoAny T V) (heap1 : Heap V)
    (hp : getPointer w heap res = some (rcv, heap1))
    (hnil : (postAndUnmarshalJson w m heap res path data).outcome = .returned none) :
    ∃ req rsp, postRequest w m.BaseUrl path data = .ok req ∧
      w.Do m.pool.Get.1 req = .ok rsp ∧
      (postAndUnmarshalJson w m heap res path data).heap = (decodeInto w heap1 rsp rcv).1 ∧
      (postAndUnmarshalJson w m heap res path data).target =
        some (decodeInto w heap1 rsp rcv).2.2 := by
  cases h1 : postRequest w m.BaseUrl path data with
  | error e =>
    rw [post_build_error w m heap res path data e h1] at hnil
    simp at hnil
  | ok req =>
    cases h2 : w.Do m.pool.Get.1 req with
    | error e =>
      rw [post_do_error w m heap res path data req rcv heap1 e h1 hp h2] at hnil
      simp at hnil
    | ok rsp =>
      refine ⟨req, rsp, rfl, h2, ?_, ?_⟩
      · rw [post_decoded w m heap res path data req rcv heap1 rsp h1 hp h2]
      · rw [post_decoded w m heap res path data req rcv heap1 rsp h1 hp h2]
        rfl

/-- Where a call that returns nil decoded, and the heap it leaves.  With a non-nil
pointer as result `Post` decodes into the pointee, and so does `Get` unless the body is
the JSON literal `null` and the pointee is not itself a pointer, when it decodes into
its own copy of the `any` and leaves the heap as it was.  With a result that is not a
pointer `Get` decodes into its own copy and `Post` into a newly allocated variable
holding the zero value of the result's type. -/
theorem decode_target_of_result (w : World E R T V) (m : Raydium) (heap : Heap V)
    (path : String) (data : RaydiumRequest) :
    (∀ t a, (Get w m heap (.pointer t (some a)) path data).outcome = .returned none →
      ∃ req rsp body, getRequest w m.BaseUrl path data = .ok req ∧
        w.Do m.pool.Get.1 req = .ok rsp ∧ w.ReadAll rsp = .ok body ∧
        ((w.isNull body && !w.isPointer t) = false →
          (Get w m heap (.pointer t (some a)) path data).target = some (.pointee a) ∧
          (Get w m heap (.pointer t (some a)) path data).heap =
            (w.Unmarshal body t a heap).1) ∧
        ((w.isNull body && !w.isPointer t) = true →
          (Get w m heap (.pointer t (some a)) path data).target = some .localCopy ∧
          (Get w m heap (.pointer t (some a)) path data).heap = heap)) ∧
    (∀ t a, (Post w m heap (.pointer t (some a)) path data).outcome = .returned none →
      ∃ req rsp, postRequest w m.BaseUrl path data = .ok req ∧
        w.Do m.pool.Get.1 req = .ok rsp ∧
        (Post w m heap (.pointer t (some a)) path data).target = some (.pointee a) ∧
        (Post w m heap (.pointer t (some a)) path data).heap = (w.Decode rsp t a heap).1) ∧
    (∀ t v, (Get w m heap (.value t v) path data).outcome = .returned none →
      (Get w m heap (.value t v) path data).target = some .localCopy ∧
      (Get w m heap (.value t v) path data).heap = heap) ∧
    (∀ t v, (Post w m heap (.value t v) path data).outcome = .returned none →
      ∃ req rsp, postRequest w m.BaseUrl path data = .ok req ∧
        w.Do m.pool.Get.1 req = .ok rsp ∧
        (Post w m heap (.value t v) path data).target = some (.pointee heap.next) ∧
        (heap.alloc (w.zero t)).2.cells heap.next = w.zero t ∧
        (Post w m heap (.value t v) path data).heap =
          (w.Decode rsp t heap.next (heap.alloc (w.zero t)).2).1) := by
  refine ⟨?_, ?_, ?_, ?_⟩
  · intro t a hnil
    obtain ⟨req, rsp, body, h1, h2, h3, hheap, htarget⟩ :=
      get_nil_inv w m heap (.pointer t (some a)) path data hnil
    refine ⟨req, rsp, body, h1, h2, h3, ?_, ?_⟩
    · intro hc
      simp only [Get]
      rw [hheap, htarget]
      simp [unmarshalAny, hc]
    · intro hc
      simp only [Get]
      rw [hheap, htarget]
      simp [unmarshalAny, hc]
  · intro t a hnil
    obtain ⟨req, rsp, h1, h2, hheap, htarget⟩ :=
      post_nil_inv w m heap (.pointer t (some a)) path data _ _ rfl hnil
    refine ⟨req, rsp, h1, h2, ?_⟩
    simp only [Post]
    rw [hheap, htarget]
    simp [decodeInto]
  · intro t v hnil
    obtain ⟨req, rsp, body, h1, h2, h3, hheap, htarget⟩ :=
      get_nil_inv w m heap (.value t v) path data hnil
    simp only [Get]
    rw [hheap, htarget]
    simp [unmarshalAny]
  · intro t v hnil
    obtain ⟨req, rsp, h1, h2, hheap, htarget⟩ :=
      post_nil_inv w m heap (.value t v) path data _ _ rfl hnil
    refine ⟨req, rsp, h1, h2, ?_⟩
    simp only [Post]
    rw [hheap, htarget]
    simp [decodeInto, Heap.alloc]

/-- The GET path takes one client from the pool and puts none back. -/
theorem get_pool (w : World E R T V) (m : Raydium) (heap : Heap V) (res : GoAny T V)
    (path : String) (data : RaydiumRequest) :
    (getAndUnmarshalJson w m heap res path data).pool = m.pool.Get.2 ∧
    (getAndUnmarshalJson w m heap res path data).acquired = [m.pool.Get.1] ∧
    ∀ c b, Event.poolGet c b ∈ (getAndUnmarshalJson w m heap res path data).trace →
      c = m.pool.Get.1 ∧ b = m.pool.free.isEmpty := by
  cases h1 : getRequest w m.BaseUrl path data with
  | error e =>
    rw [get_build_error w m heap res path data e h1]
    simp [Run.acquired]
  | ok req =>
    cases h2 : w.Do m.pool.Get.1 req with
    | error e =>
      rw [get_do_error w m heap res path data req e h1 h2]
      simp [Run.acquired]
    | ok rsp =>
      cases h3 : w.ReadAll rsp with
      | error e =>
        rw [get_read_error w m heap res path data req rsp e h1 h2 h3]
        simp [Run.acquired]
      | ok body =>
        rw [get_decoded w m heap res path data req rsp body h1 h2 h3]
        simp [Run.acquired]

/-- The POST path takes one client from the pool and puts none back. -/
theorem post_pool (w : World E R T V) (m : Raydium) (heap : Heap V) (res : GoAny T V)
    (path : String) (data : RaydiumRequest) :
    (postAndUnmarshalJson w m heap res path data).pool = m.pool.Get.2 ∧
    (postAndUnmarshalJson w m heap res path data).acquired = [m.pool.Get.1] ∧
    ∀ c b, Event.poolGet c b ∈ (postAndUnmarshalJson w m heap res path data).trace →
      c = m.pool.Get.1 ∧ b = m.pool.free.isEmpty := by
  cases h1 : postRequest w m.BaseUrl path data with
  | error e =>
    rw [post_build_error w m heap res path data e h1]
    simp [Run.acquired]
  | ok req =>
    cases hp : getPointer w heap res with
    | none =>
      rw [post_panic w m heap res path data req h1 hp]
      simp [Run.acquired]
    | some p =>
      obtain ⟨rcv, heap1⟩ := p
      cases h2 : w.Do m.pool.Get.1 req with
      | error e =>
        rw [post_do_error w m heap res path data req rcv heap1 e h1 hp h2]
        simp [Run.acquired]
      | ok rsp =>
        rw [post_decoded w m heap res path data req rcv heap1 rsp h1 hp h2]
        simp [Run.acquired]

/-- A call either takes one client from the pool, or (a `SwapQuote` that panics) leaves
the pool alone and does nothing; it puts no client back. -/
theorem call_pool (w : World E R T V) (m : Raydium) (c : Call T V) :
    ((c.run w m).pool = m.pool.Get.2 ∧ (c.run w m).acquired = [m.pool.Get.1] ∧
      ∀ cl b, Event.poolGet cl b ∈ (c.run w m).trace →
        cl = m.pool.Get.1 ∧ b = m.pool.free.isEmpty) ∨
    ((c.run w m).pool = m.pool ∧ (c.run w m).trace = []) := by
  cases c with
  | get heap res path data => exact Or.inl (get_pool w m heap res path data)
  | post heap res path data => exact Or.inl (post_pool w m heap res path data)
  | swapQuote heap res headers data =>
    cases headers with
    | none => right; simp [Call.run, SwapQuote, queryValues]
    | some h =>
      left
      simp only [Call.run]
      rw [swapQuote_run]
      exact get_pool w m heap res _ _

/-- On a client whose free list is empty, the runs of a sequence of calls keep the free
list empty, and the clients they take are those `New` makes, numbered from the count of
clients made so far. -/
theorem runCalls_pool (w : World E R T V) (calls : List (Call T V)) (m : Raydium)
    (hfree : m.pool.free = []) :
    (∀ r ∈ runCalls w m calls, r.pool.free = [] ∧ r.acquired.length ≤ 1 ∧
      ∀ cl b, Event.poolGet cl b ∈ r.trace → b = true ∧ cl.timeoutMs = 5000) ∧
    ∃ k, (runCalls w m calls).flatMap Run.acquired =
      (List.range' m.pool.made k).map (fun i => ({ id := i, timeoutMs := 5000 } : Client)) := by
  induction calls generalizing m with
  | nil => exact ⟨by simp [runCalls], 0, by simp [runCalls]⟩
  | cons c cs ih =>
    have hget1 : m.pool.Get.1 = { id := m.pool.made, timeoutMs := 5000 } := by
      simp [Pool.Get, hfree, Pool.New]
    have hget2 : m.pool.Get.2 = { free := [], made := m.pool.made + 1 } := by
      simp [Pool.Get, hfree]
    rcases call_pool w m c with ⟨hpool, hacq, hev⟩ | ⟨hpool, htrace⟩
    · have hfree1 : ({ m with pool := (c.run w m).pool } : Raydium).pool.free = [] := by
        simp [hpool, hget2]
      obtain ⟨ih1, k, ih2⟩ := ih { m with pool := (c.run w m).pool } hfree1
      constructor
      · intro r hr
        simp only [runCalls, List.mem_cons] at hr
        rcases hr with hr | hr
        · rw [hr]
          refine ⟨by rw [hpool, hget2], by rw [hacq]; simp, ?_⟩
          intro cl b hmem
          obtain ⟨h1, h2⟩ := hev cl b hmem
          rw [h1, h2, hget1, hfree]
          exact ⟨rfl, rfl⟩
        · exact ih1 r hr
      · refine ⟨k + 1, ?_⟩
        simp only [runCalls, List.flatMap_cons]
        rw [ih2, hacq, hget1]
        simp only [hpool, hget2]
        rw [List.range'_succ]
        simp
    · have hfree1 : ({ m with pool := (c.run w m).pool } : Raydium).pool.free = [] := by
        simp [hpool, hfree]
      obtain ⟨ih1, k, ih2⟩ := ih { m with pool := (c.run w m).pool } hfree1
      constructor
      · intro r hr
        simp only [runCalls, List.mem_cons] at hr
        rcases hr with hr | hr
        · rw [hr]
          refine ⟨by rw [hpool, hfree], by simp [Run.acquired, htrace], ?_⟩
          intro cl b hmem
          rw [htrace] at hmem
          simp at hmem
        · exact ih1 r hr
      · refine ⟨k, ?_⟩
        simp only [runCalls, List.flatMap_cons]
        rw [ih2]
        simp [Run.acquired, htrace, hpool]

/-- The error of the decode stage of the GET path, by the result handed in. -/
theorem unmarshalAny_error (w : World E R T V) (heap : Heap V) (body : String)
    (res : GoAny T V) :
    (unmarshalAny w heap body res).2.1 =
      (match res with
        | .pointer t (some a) =>
          if (w.isNull body && !w.isPointer t) = true then w.UnmarshalAny body
          else (w.Unmarshal body t a heap).2
        | _ => w.UnmarshalAny body) := by
  cases res with
  | nil => rfl
  | value t v => rfl
  | pointer t a =>
    cases a with
    | none => rfl
    | some a =>
      simp only [unmarshalAny]
      split <;> rfl

/-- The error of the decode stage of the POST path, by the result handed in. -/
theorem decodeInto_error (w : World E R T V) (heap : Heap V) (rsp : R) (res : GoAny T V) :
    ∀ rcv heap1, getPointer w heap res = some (rcv, heap1) →
      (decodeInto w heap1 rsp rcv).2.1 =
        (match res with
          | .pointer t (some a) => (w.Decode rsp t a heap).2
          | .value t _ => (w.Decode rsp t heap.next (heap.alloc (w.zero t)).2).2
          | v => some (w.DecodeInvalid rsp v)) := by
  intro rcv heap1 hp
  cases res with
  | nil => simp [getPointer] at hp
  | value t v =>
    simp only [getPointer, Option.some.injEq, Prod.mk.injEq] at hp
    obtain ⟨h1, h2⟩ := hp
    subst h1 h2
    rfl
  | pointer t a =>
    simp only [getPointer, Option.some.injEq, Prod.mk.injEq] at hp
    obtain ⟨h1, h2⟩ := hp
    subst h1 h2
    cases a <;> rfl

end Lemmas

/-! ## The claims -/

section Claims

variable {E R T V : Type}

/-- C1, as stated, fails: for the path `/a b` the URL of the request either builder
makes reads `https://api.example.com/a%20b`, which is not `base ++ path`: the request
holds the URL `url.Parse` made of that string, and its text escapes the path.  For a
path that needs no escaping the text is `base ++ path ++ "?" ++ query`, the query kept
byte for byte. -/
theorem built_url_escapes_path :
    ((getRequest (demoWorld "null") "https://api.example.com" "/a b"
        ⟨none, none, none⟩).toOption.map (fun req => req.url.String) =
      some "https://api.example.com/a%20b") ∧
    ((postRequest (demoWorld "null") "https://api.example.com" "/a b"
        ⟨none, none, none⟩).toOption.map (fun req => req.url.String) =
      some "https://api.example.com/a%20b") ∧
    ((getRequest (demoWorld "null") "https://api.example.com" "/a b"
        ⟨none, none, none⟩).toOption.map (fun req => req.url.String) ≠
      some ("https://api.example.com" ++ "/a b")) ∧
    ((postRequest (demoWorld "null") "https://api.example.com" "/a b"
        ⟨none, none, none⟩).toOption.map (fun req => req.url.String) ≠
      some ("https://api.example.com" ++ "/a b")) ∧
    ((getRequest (demoWorld "null") "https://api.example.com" "/x"
        ⟨none, some "a=1 2&b=%zz", none⟩).toOption.map (fun req => req.url.String) =
      some ("https://api.example.com" ++ "/x" ++ "?" ++ "a=1 2&b=%zz")) := by
  refine ⟨?_, ?_, ?_, ?_, ?_⟩ <;> set_option maxRecDepth 100000 in decide

/-- C1, amended: in both builders the string handed to `http.NewRequest` is
`base ++ path` when the descriptor has no query string and
`base ++ path ++ "?" ++ query` when it has one, the query string copied as it is; the
URL of the built request is what `http.NewRequest` makes of that string (the result of
`url.Parse`, an empty port removed from the host), and the request is built whenever
that string parses. -/
theorem built_url_is_parse_of_base_path_query (w : World E R T V) (baseUrl path : String)
    (body : Option String) (headers : Option GoMap) :
    (∀ req, getRequest w baseUrl path ⟨body, none, headers⟩ = .ok req →
        req.url = newRequestURL w (baseUrl ++ path)) ∧
    (∀ req, postRequest w baseUrl path ⟨body, none, headers⟩ = .ok req →
        req.url = newRequestURL w (baseUrl ++ path)) ∧
    (∀ q req, getRequest w baseUrl path ⟨body, some q, headers⟩ = .ok req →
        req.url = newRequestURL w (baseUrl ++ path ++ "?" ++ q)) ∧
    (∀ q req, postRequest w baseUrl path ⟨body, some q, headers⟩ = .ok req →
        req.url = newRequestURL w (baseUrl ++ path ++ "?" ++ q)) ∧
    (w.parseURL (baseUrl ++ path) = none →
        (∃ req, getRequest w baseUrl path ⟨body, none, headers⟩ = .ok req) ∧
        (∃ req, postRequest w baseUrl path ⟨body, none, headers⟩ = .ok req)) ∧
    (∀ q, w.parseURL (baseUrl ++ path ++ "?" ++ q) = none →
        (∃ req, getRequest w baseUrl path ⟨body, some q, headers⟩ = .ok req) ∧
        (∃ req, postRequest w baseUrl path ⟨body, some q, headers⟩ = .ok req)) ∧
    (∀ s, newRequestURL w s =
      { w.parsedURL s with Host := removeEmptyPort (w.parsedURL s).Host }) := by
  refine ⟨?_, ?_, ?_, ?_, ?_, ?_, ?_⟩
  · intro req h
    rw [getRequest_eq] at h
    simp only [requestURL] at h
    cases hp : w.parseURL (baseUrl ++ path) <;> rw [hp] at h <;> simp at h
    rw [← h]
  · intro req h
    rw [postRequest_eq] at h
    simp only [requestURL] at h
    cases hp : w.parseURL (baseUrl ++ path) <;> rw [hp] at h <;> simp at h
    rw [← h]
  · intro q req h
    rw [getRequest_eq] at h
    simp only [requestURL] at h
    cases hp : w.parseURL (baseUrl ++ path ++ "?" ++ q) <;> rw [hp] at h <;> simp at h
    rw [← h]
  · intro q req h
    rw [postRequest_eq] at h
    simp only [requestURL] at h
    cases hp : w.parseURL (baseUrl ++ path ++ "?" ++ q) <;> rw [hp] at h <;> simp at h
    rw [← h]
  · intro hp
    constructor
    · rw [getRequest_eq]
      simp only [requestURL]
      rw [hp]
      exact ⟨_, rfl⟩
    · rw [postRequest_eq]
      simp only [requestURL]
      rw [hp]
      exact ⟨_, rfl⟩
  · intro q hp
    constructor
    · rw [getRequest_eq]
      simp only [requestURL]
      rw [hp]
      exact ⟨_, rfl⟩
    · rw [postRequest_eq]
      simp only [requestURL]
      rw [hp]
      exact ⟨_, rfl⟩
  · intro _
    rfl

/-- C2, as stated, fails on the spec's own example: for base `https://api.example.com`
and the query `A, B, 1000000, 50, V0` the URL `SwapQuote` sends lists the parameters in
the order of their keys, `amount` first, and is not the URL the claim gives. -/
theorem swapQuote_example_url_not_in_field_order :
    ((SwapQuote (demoWorld "null") (NewRaydium "https://api.example.com") demoHeap
        (.pointer .quote (some 1)) (some []) ⟨"A", "B", 1000000, 50, "V0"⟩).run.sent.map
          (fun req => req.url.String) =
      some "https://api.example.com/compute/swap-base-in?amount=1000000&inputMint=A&outputMint=B&slippageBps=50&txVersion=V0") ∧
    ((SwapQuote (demoWorld "null") (NewRaydium "https://api.example.com") demoHeap
        (.pointer .quote (some 1)) (some []) ⟨"A", "B", 1000000, 50, "V0"⟩).run.sent.map
          (fun req => req.url.String) ≠
      some "https://api.example.com/compute/swap-base-in?inputMint=A&outputMint=B&amount=1000000&slippageBps=50&txVersion=V0") := by
  constructor
  · set_option maxRecDepth 1000000 in decide
  · set_option maxRecDepth 1000000 in decide

/-- C2, amended: for every quote query and every non-nil header map, the request
`SwapQuote` sends is a GET request whose URL is what `http.NewRequest` makes of the
string `base ++ "/compute/swap-base-in?" ++ qs`, where `qs` lists the five parameters
in the order of their keys, `amount, inputMint, outputMint, slippageBps, txVersion`,
each value URL-escaped; the request is sent whenever that string parses.  For base
`https://api.example.com` and the query `A, B, 1000000, 50, V0` the URL reads
`https://api.example.com/compute/swap-base-in?amount=1000000&inputMint=A&outputMint=B&slippageBps=50&txVersion=V0`. -/
theorem swapQuote_url_in_key_order (w : World E R T V) (m : Raydium) (heap : Heap V)
    (res : GoAny T V) (h : GoMap) (data : RaydiumQuoteRequest) :
    (∀ req, (SwapQuote w m heap res (some h) data).run.sent = some req →
      req.method = "GET" ∧
      req.url = newRequestURL w (m.BaseUrl ++ "/compute/swap-base-in?" ++
        ("amount=" ++ QueryEscape (formatInt data.Amount) ++
          "&inputMint=" ++ QueryEscape data.InputMint ++
          "&outputMint=" ++ QueryEscape data.OutputMint ++
          "&slippageBps=" ++ QueryEscape (formatInt data.SlippageBps) ++
          "&txVersion=" ++ QueryEscape data.TxVersion))) ∧
    (w.parseURL (m.BaseUrl ++ "/compute/swap-base-in?" ++
        ("amount=" ++ QueryEscape (formatInt data.Amount) ++
          "&inputMint=" ++ QueryEscape data.InputMint ++
          "&outputMint=" ++ QueryEscape data.OutputMint ++
          "&slippageBps=" ++ QueryEscape (formatInt data.SlippageBps) ++
          "&txVersion=" ++ QueryEscape data.TxVersion)) = none →
      ∃ req, (SwapQuote w m heap res (some h) data).run.sent = some req) ∧
    (∀ s, newRequestURL w s =
      { w.parsedURL s with Host := removeEmptyPort (w.parsedURL s).Host }) ∧
    ((newRequestURL (demoWorld "null")
        ("https://api.example.com" ++ "/compute/swap-base-in?" ++
          ("amount=" ++ QueryEscape (formatInt 1000000) ++ "&inputMint=" ++ QueryEscape "A" ++
            "&outputMint=" ++ QueryEscape "B" ++ "&slippageBps=" ++ QueryEscape (formatInt 50) ++
            "&txVersion=" ++ QueryEscape "V0"))).String =
      "https://api.example.com/compute/swap-base-in?amount=1000000&inputMint=A&outputMint=B&slippageBps=50&txVersion=V0") := by
  have hurl : ∀ hs : Option GoMap,
      requestURL m.BaseUrl "/compute/swap-base-in"
        ⟨none, some (Values.Encode [("inputMint", [data.InputMint]),
          ("outputMint", [data.OutputMint]), ("amount", [formatInt data.Amount]),
          ("slippageBps", [formatInt data.SlippageBps]), ("txVersion", [data.TxVersion])]), hs⟩ =
      m.BaseUrl ++ "/compute/swap-base-in?" ++
        ("amount=" ++ QueryEscape (formatInt data.Amount) ++
          "&inputMint=" ++ QueryEscape data.InputMint ++
          "&outputMint=" ++ QueryEscape data.OutputMint ++
          "&slippageBps=" ++ QueryEscape (formatInt data.SlippageBps) ++
          "&txVersion=" ++ QueryEscape data.TxVersion) := by
    intro hs
    simp only [requestURL, encode_queryValues, String.append_assoc]
    rfl
  refine ⟨?_, ?_, fun _ => rfl, by set_option maxRecDepth 1000000 in decide⟩
  · intro req hreq
    rw [swapQuote_run, getAndUnmarshalJson_sent, getRequest_eq] at hreq
    simp only [swapQuoteRequest] at hreq
    rw [hurl] at hreq
    cases hp : w.parseURL (m.BaseUrl ++ "/compute/swap-base-in?" ++
        ("amount=" ++ QueryEscape (formatInt data.Amount) ++
          "&inputMint=" ++ QueryEscape data.InputMint ++
          "&outputMint=" ++ QueryEscape data.OutputMint ++
          "&slippageBps=" ++ QueryEscape (formatInt data.SlippageBps) ++
          "&txVersion=" ++ QueryEscape data.TxVersion)) with
    | some e => rw [hp] at hreq; simp [Except.toOption] at hreq
    | none =>
      rw [hp] at hreq
      simp only [Except.toOption, Option.some.injEq] at hreq
      rw [← hreq]
      exact ⟨rfl, rfl⟩
  · intro hp
    rw [swapQuote_run, getAndUnmarshalJson_sent, getRequest_eq]
    simp only [swapQuoteRequest]
    rw [hurl, hp]
    exact ⟨_, rfl⟩

/-- C5, as stated, fails: with the body field `"x"` and nothing else set, the body of
the request of either builder is the JSON object of the whole descriptor, not the JSON
text `"x"` of the body field. -/
theorem body_is_not_json_of_body_field :
    ((getRequest (demoWorld "null") "https://api.example.com" "/x"
        ⟨some "x", none, none⟩).toOption.map Request.body =
      some "\x7b\"Data\":\"x\",\"QueryParams\":null,\"Headers\":null\x7d") ∧
    ((postRequest (demoWorld "null") "https://api.example.com" "/x"
        ⟨some "x", none, none⟩).toOption.map Request.body =
      some "\x7b\"Data\":\"x\",\"QueryParams\":null,\"Headers\":null\x7d") ∧
    jsonString "x" = "\"x\"" ∧
    ((getRequest (demoWorld "null") "https://api.example.com" "/x"
        ⟨some "x", none, none⟩).toOption.map Request.body ≠ some (jsonString "x")) ∧
    ((postRequest (demoWorld "null") "https://api.example.com" "/x"
        ⟨some "x", none, none⟩).toOption.map Request.body ≠ some (jsonString "x")) := by
  refine ⟨?_, ?_, ?_, ?_, ?_⟩ <;> set_option maxRecDepth 100000 in decide

/-- C5, amended: in both builders, when the descriptor's body field is present the
request body is the JSON object `json.Marshal` writes for the whole descriptor (its
`Data`, `QueryParams` and `Headers` members), and when the body field is absent the
request body is empty; the request is built whenever its URL parses. -/
theorem body_is_json_of_descriptor (w : World E R T V) (baseUrl path : String)
    (data : RaydiumRequest) :
    (∀ req, getRequest w baseUrl path data = .ok req ∨
        postRequest w baseUrl path data = .ok req →
      (∀ x, data.Data = some x →
        req.body = "\x7b\"Data\":" ++ jsonString x ++ ",\"QueryParams\":" ++
          jsonStringPtr data.QueryParams ++ ",\"Headers\":" ++
          jsonStringMap data.Headers ++ "\x7d") ∧
      (data.Data = none → req.body = "")) ∧
    (w.parseURL (requestURL baseUrl path data) = none →
      (∃ req, getRequest w baseUrl path data = .ok req) ∧
      (∃ req, postRequest w baseUrl path data = .ok req)) := by
  rw [getRequest_eq, postRequest_eq]
  constructor
  · intro req hreq
    cases hp : w.parseURL (requestURL baseUrl path data) with
    | some e => rw [hp] at hreq; simp at hreq
    | none =>
      rw [hp] at hreq
      simp only [Except.ok.injEq] at hreq
      constructor
      · intro x hx
        rcases hreq with hreq | hreq <;> rw [← hreq] <;>
          simp [hx, marshalRaydiumRequest, jsonStringPtr]
      · intro hx
        rcases hreq with hreq | hreq <;> rw [← hreq] <;> simp [hx]
  · intro hp
    rw [hp]
    exact ⟨⟨_, rfl⟩, ⟨_, rfl⟩⟩

/-- C3, as stated, fails: the caller's map has one entry, under `CONTENT-TYPE`, so it
has none under `content-type` (nor under `Content-Type`), and yet the content type of
the POST request is the caller's value, not the default. -/
theorem post_default_replaced_under_other_case :
    GoMap.lookup [("CONTENT-TYPE", "application/json")] "content-type" = none ∧
    GoMap.lookup [("CONTENT-TYPE", "application/json")] "Content-Type" = none ∧
    ((postRequest (demoWorld "null") "https://api.example.com" "/x"
        ⟨none, none, some [("CONTENT-TYPE", "application/json")]⟩).toOption.map
          (fun req => Header.Get req.header "content-type") =
      some (some "application/json")) ∧
    ((postRequest (demoWorld "null") "https://api.example.com" "/x"
        ⟨none, none, some [("CONTENT-TYPE", "application/json")]⟩).toOption.map
          Request.header =
      some [("Content-Type", "application/json"), ("Cache-Content", "no-cache")]) := by
  refine ⟨?_, ?_, ?_, ?_⟩ <;> set_option maxRecDepth 100000 in decide

/-- C3, amended: the request of a POST call carries the content type
`application/x-www-form-urlencoded` and `Cache-Content: no-cache` unless overridden; a
default is replaced exactly when the caller's map has an entry whose key has the same
canonical MIME form as the default's key (letter case is not compared), and the value
sent is then the caller's value of such an entry. -/
theorem post_default_replaced_by_canonical_key (w : World E R T V) (baseUrl path : String)
    (data : RaydiumRequest) (req : Request)
    (hreq : postRequest w baseUrl path data = .ok req) :
    (data.Headers = none →
      Header.Get req.header "content-type" = some "application/x-www-form-urlencoded" ∧
      Header.Get req.header "Cache-Content" = some "no-cache") ∧
    (∀ hs, data.Headers = some hs →
      ((∀ e ∈ hs, CanonicalMIMEHeaderKey e.1 ≠ CanonicalMIMEHeaderKey "content-type") →
        Header.Get req.header "content-type" = some "application/x-www-form-urlencoded") ∧
      ((∃ e ∈ hs, CanonicalMIMEHeaderKey e.1 = CanonicalMIMEHeaderKey "content-type") →
        ∃ e ∈ hs, CanonicalMIMEHeaderKey e.1 = CanonicalMIMEHeaderKey "content-type" ∧
          Header.Get req.header "content-type" = some e.2) ∧
      ((∀ e ∈ hs, CanonicalMIMEHeaderKey e.1 ≠ CanonicalMIMEHeaderKey "Cache-Content") →
        Header.Get req.header "Cache-Content" = some "no-cache") ∧
      ((∃ e ∈ hs, CanonicalMIMEHeaderKey e.1 = CanonicalMIMEHeaderKey "Cache-Content") →
        ∃ e ∈ hs, CanonicalMIMEHeaderKey e.1 = CanonicalMIMEHeaderKey "Cache-Content" ∧
          Header.Get req.header "Cache-Content" = some e.2)) := by
  have hct : Header.Get (Header.Set (Header.Set [] "content-type"
      "application/x-www-form-urlencoded") "Cache-Content" "no-cache") "content-type" =
      some "application/x-www-form-urlencoded" := by decide
  have hcc : Header.Get (Header.Set (Header.Set [] "content-type"
      "application/x-www-form-urlencoded") "Cache-Content" "no-cache") "Cache-Content" =
      some "no-cache" := by decide
  rw [postRequest_eq] at hreq
  cases hp : w.parseURL (requestURL baseUrl path data) with
  | some e => rw [hp] at hreq; simp at hreq
  | none =>
    rw [hp] at hreq
    simp only [Except.ok.injEq] at hreq
    constructor
    · intro hnone
      rw [← hreq]
      simp only [hnone]
      exact ⟨hct, hcc⟩
    · intro hs hsome
      rw [← hreq]
      simp only [hsome]
      obtain ⟨a1, a2⟩ := get_setHeaders w (Header.Set (Header.Set [] "content-type"
        "application/x-www-form-urlencoded") "Cache-Content" "no-cache") hs "content-type"
      obtain ⟨b1, b2⟩ := get_setHeaders w (Header.Set (Header.Set [] "content-type"
        "application/x-www-form-urlencoded") "Cache-Content" "no-cache") hs "Cache-Content"
      refine ⟨?_, a2, ?_, b2⟩
      · intro hno
        rw [a1 hno, hct]
      · intro hno
        rw [b1 hno, hcc]

/-- C3, amended, at a concrete call: a caller entry under `Content-type` replaces the
default content type. -/
theorem post_default_replaced_by_canonical_key_witness :
    ∃ e ∈ [("Content-type", "text/plain")],
      CanonicalMIMEHeaderKey e.1 = CanonicalMIMEHeaderKey "content-type" ∧
      Header.Get ([("Content-Type", "text/plain"), ("Cache-Content", "no-cache")] : Header)
        "content-type" = some e.2 :=
  ((post_default_replaced_by_canonical_key (demoWorld "null") "https://api.example.com" "/x"
    ⟨none, none, some [("Content-type", "text/plain")]⟩
    { method := "POST",
      url := { Scheme := "https", Opaque := "", Host := "api.example.com", Path := "/x",
               RawPath := "", OmitHost := false, ForceQuery := false, RawQuery := "",
               Fragment := "", RawFragment := "" },
      body := "",
      header := [("Content-Type", "text/plain"), ("Cache-Content", "no-cache")] }
    (by set_option maxRecDepth 100000 in rfl)).2 [("Content-type", "text/plain")] rfl).2.1
    ⟨("Content-type", "text/plain"), List.mem_cons_self _ _, by decide⟩

/-- C4, as stated, fails: for a caller map with the two entries `a` and `A` the header
of the GET request has one entry, whichever entry the loop visits first, and for a
caller map with the entry `content-type` the header has the entry `Content-Type`: the
header set is not the caller's map. -/
theorem get_header_is_not_callers_map :
    ((getRequest (demoWorld "null") "https://api.example.com" "/x"
        ⟨none, none, some [("a", "1"), ("A", "2")]⟩).toOption.map Request.header =
      some [("A", "2")]) ∧
    ((getRequest (demoWorld "null") "https://api.example.com" "/x"
        ⟨none, none, some [("A", "2"), ("a", "1")]⟩).toOption.map Request.header =
      some [("A", "1")]) ∧
    ((getRequest (demoWorld "null") "https://api.example.com" "/x"
        ⟨none, none, some [("content-type", "text/plain")]⟩).toOption.map Request.header =
      some [("Content-Type", "text/plain")]) := by
  refine ⟨?_, ?_, ?_⟩ <;> set_option maxRecDepth 100000 in decide

/-- C4, amended: the header set of the request of a GET call (and so of a `SwapQuote`
call) is the caller's map with every key put in canonical MIME form.  Nothing is added
by the builder: every header comes from a caller entry whose key has that canonical
form, every caller key is present in canonical form, there is no content type unless a
caller key has the canonical form `Content-Type`, and for an absent or empty map the
request has no headers.  When the caller's keys are already canonical and distinct the
header set is exactly the caller's map. -/
theorem get_header_is_canonical_callers_map (w : World E R T V) (baseUrl path : String)
    (data : RaydiumRequest) :
    (∀ req, getRequest w baseUrl path data = .ok req →
      (data.Headers = none ∨ data.Headers = some [] → req.header = []) ∧
      (∀ hs, data.Headers = some hs →
        (∀ e ∈ req.header, ∃ x ∈ hs, CanonicalMIMEHeaderKey x.1 = e.1 ∧ x.2 = e.2) ∧
        (∀ x ∈ hs, ∃ e ∈ req.header, e.1 = CanonicalMIMEHeaderKey x.1) ∧
        ((∀ x ∈ hs, CanonicalMIMEHeaderKey x.1 = x.1) → (hs.map Prod.fst).Nodup →
          req.header.Perm hs)) ∧
      ((∀ hs, data.Headers = some hs →
          ∀ x ∈ hs, CanonicalMIMEHeaderKey x.1 ≠ CanonicalMIMEHeaderKey "content-type") →
        Header.Get req.header "content-type" = none)) ∧
    (w.parseURL (requestURL baseUrl path data) = none →
      ∃ req, getRequest w baseUrl path data = .ok req) ∧
    (∀ (m : Raydium) (heap : Heap V) (res : GoAny T V) (h : GoMap)
        (q : RaydiumQuoteRequest) (req : Request),
      (SwapQuote w m heap res (some h) q).run.sent = some req →
      ∀ e ∈ req.header,
        ∃ x ∈ GoMap.assign (GoMap.assign h "User-Agent" userAgent) "Cache-Content" "no-cache",
          CanonicalMIMEHeaderKey x.1 = e.1 ∧ x.2 = e.2) := by
  refine ⟨?_, ?_, ?_⟩
  · intro req hreq
    have hh := getRequest_header w baseUrl path data req hreq
    refine ⟨?_, ?_, ?_⟩
    · rintro (hn | hn)
      · rw [hh, hn]
      · rw [hh, hn]
        have : w.rangeOrder [] = [] := List.Perm.eq_nil (w.rangeOrder_perm [])
        simp only [setHeaders, this, List.foldl_nil]
    · intro hs hsome
      rw [hsome] at hh
      simp only at hh
      rw [hh]
      refine ⟨fun e he => mem_setHeaders_nil w hs e he, ?_, ?_⟩
      · intro x hx
        have hk : CanonicalMIMEHeaderKey x.1 ∈ (setHeaders w [] hs).map Prod.fst := by
          unfold setHeaders
          rw [mem_keys_foldl_set]
          exact Or.inr ⟨x, (w.rangeOrder_perm hs).mem_iff.mpr hx, rfl⟩
        obtain ⟨e, he, hek⟩ := List.mem_map.mp hk
        exact ⟨e, he, hek⟩
      · intro hcanon hnodup
        have hperm := w.rangeOrder_perm hs
        have h1 : setHeaders w [] hs = [] ++ w.rangeOrder hs := by
          unfold setHeaders
          apply foldl_set_of_canonical
          · exact fun x hx => hcanon x (hperm.mem_iff.mp hx)
          · simpa using (hperm.map Prod.fst).nodup_iff.mpr hnodup
        rw [h1]
        simpa using hperm
    · intro hno
      rw [hh]
      cases hd : data.Headers with
      | none => rfl
      | some hs =>
        simp only
        rw [(get_setHeaders w [] hs "content-type").1 (hno hs hd)]
        rfl
  · intro hp
    rw [getRequest_eq, hp]
    exact ⟨_, rfl⟩
  · intro m heap res h q req hsent e he
    rw [swapQuote_run, getAndUnmarshalJson_sent] at hsent
    cases hreq : getRequest w m.BaseUrl "/compute/swap-base-in"
        (swapQuoteRequest [("inputMint", [q.InputMint]), ("outputMint", [q.OutputMint]),
          ("amount", [formatInt q.Amount]), ("slippageBps", [formatInt q.SlippageBps]),
          ("txVersion", [q.TxVersion])] h) with
    | error err => rw [hreq] at hsent; simp [Except.toOption] at hsent
    | ok r =>
      rw [hreq] at hsent
      simp only [Except.toOption, Option.some.injEq] at hsent
      have hh := getRequest_header w _ _ _ r hreq
      simp only [swapQuoteRequest] at hh
      rw [← hsent, hh] at he
      exact mem_setHeaders_nil w _ e he

/-- C7: for a non-nil header map `h`, after `SwapQuote` the caller's map is `h` with
`User-Agent` set to the fixed browser string and `Cache-Content` set to `no-cache`,
whatever `h` held under either key; every other key reads as before; and this updated
map is the header map of the descriptor handed to the GET path. -/
theorem swapQuote_writes_callers_headers (w : World E R T V) (m : Raydium) (heap : Heap V)
    (res : GoAny T V) (h : GoMap) (data : RaydiumQuoteRequest) :
    ∃ h1, (SwapQuote w m heap res (some h) data).headers = some h1 ∧
      GoMap.lookup h1 "User-Agent" = some
        "Mozilla/5.0 (Macintosh; Intel Mac OS X 10_15_7) AppleWebKit/537.36 (KHTML, like Gecko) Chrome/125.0.0.0 Safari/537.36" ∧
      GoMap.lookup h1 "Cache-Content" = some "no-cache" ∧
      (∀ k, k ≠ "User-Agent" → k ≠ "Cache-Content" → GoMap.lookup h1 k = GoMap.lookup h k) ∧
      (∀ e ∈ h1, e ∈ h ∨ e.1 = "User-Agent" ∨ e.1 = "Cache-Content") ∧
      (∃ qs, (SwapQuote w m heap res (some h) data).run =
        getAndUnmarshalJson w m heap res "/compute/swap-base-in"
          { Data := none, QueryParams := some qs, Headers := some h1 }) := by
  refine ⟨GoMap.assign (GoMap.assign h "User-Agent" userAgent) "Cache-Content" "no-cache",
    ?_, ?_, ?_, ?_, ?_, ?_⟩
  · simp only [SwapQuote, queryValues, swapQuoteRequest]
  · rw [lookup_assign, if_neg (by decide), lookup_assign, if_pos rfl]
    rfl
  · rw [lookup_assign, if_pos rfl]
  · intro k hk1 hk2
    rw [lookup_assign, if_neg (fun hk => hk2 hk.symm), lookup_assign,
      if_neg (fun hk => hk1 hk.symm)]
  · intro e he
    rcases mem_assign _ _ _ _ he with h1 | h1
    · exact Or.inr (Or.inr (by rw [h1]))
    · rcases mem_assign _ _ _ _ h1 with h2 | h2
      · exact Or.inr (Or.inl (by rw [h2]))
      · exact Or.inl h2
  · exact ⟨_, swapQuote_run w m heap res h data⟩

/-- C8: for a non-nil result, `Get` and `Post` return nil exactly when the request is
built, the round trip succeeds and the response decodes (for `Get` the body has to be
read in between); otherwise they return the error of the first of these that failed,
as it is, and what comes after it is not run: when the builder fails the transport is
never invoked, when the round trip fails nothing is read or decoded.  The error of the
decode stage is the one `json.Unmarshal` (for `Get`) or the decoder's `Decode` (for
`Post`) gives for the store the call decodes into. -/
theorem first_failure_is_returned (w : World E R T V) (m : Raydium) (heap : Heap V)
    (res : GoAny T V) (path : String) (data : RaydiumRequest) :
    res ≠ .nil →
    (∀ e, getRequest w m.BaseUrl path data = .error e →
      (Get w m heap res path data).outcome = .returned (some e) ∧
      (Get w m heap res path data).trace = [.poolGet m.pool.Get.1 m.pool.free.isEmpty]) ∧
    (∀ req e, getRequest w m.BaseUrl path data = .ok req →
      w.Do m.pool.Get.1 req = .error e →
      (Get w m heap res path data).outcome = .returned (some e) ∧
      (Get w m heap res path data).trace =
        [.poolGet m.pool.Get.1 m.pool.free.isEmpty, .send m.pool.Get.1 req]) ∧
    (∀ req rsp e, getRequest w m.BaseUrl path data = .ok req →
      w.Do m.pool.Get.1 req = .ok rsp → w.ReadAll rsp = .error e →
      (Get w m heap res path data).outcome = .returned (some e) ∧
      (Get w m heap res path data).trace =
        [.poolGet m.pool.Get.1 m.pool.free.isEmpty, .send m.pool.Get.1 req, .readAll]) ∧
    (∀ req rsp body, getRequest w m.BaseUrl path data = .ok req →
      w.Do m.pool.Get.1 req = .ok rsp → w.ReadAll rsp = .ok body →
      (Get w m heap res path data).outcome = .returned (unmarshalAny w heap body res).2.1) ∧
    (∀ req rsp body, getRequest w m.BaseUrl path data = .ok req →
      w.Do m.pool.Get.1 req = .ok rsp → w.ReadAll rsp = .ok body →
      (Get w m heap res path data).outcome = .returned
        (match res with
          | .pointer t (some a) =>
            if (w.isNull body && !w.isPointer t) = true then w.UnmarshalAny body
            else (w.Unmarshal body t a heap).2
          | _ => w.UnmarshalAny body)) ∧
    ((Get w m heap res path data).outcome = .returned none ↔
      ∃ req rsp body, getRequest w m.BaseUrl path data = .ok req ∧
        w.Do m.pool.Get.1 req = .ok rsp ∧ w.ReadAll rsp = .ok body ∧
        (unmarshalAny w heap body res).2.1 = none) ∧
    ((Get w m heap res path data).outcome = .returned none ↔
      ∃ req rsp body, getRequest w m.BaseUrl path data = .ok req ∧
        w.Do m.pool.Get.1 req = .ok rsp ∧ w.ReadAll rsp = .ok body ∧
        (match res with
          | .pointer t (some a) =>
            if (w.isNull body && !w.isPointer t) = true then w.UnmarshalAny body
            else (w.Unmarshal body t a heap).2
          | _ => w.UnmarshalAny body) = none) ∧
    (∀ e, postRequest w m.BaseUrl path data = .error e →
      (Post w m heap res path data).outcome = .returned (some e) ∧
      (Post w m heap res path data).trace = [.poolGet m.pool.Get.1 m.pool.free.isEmpty]) ∧
    (∀ req e, postRequest w m.BaseUrl path data = .ok req →
      w.Do m.pool.Get.1 req = .error e →
      (Post w m heap res path data).outcome = .returned (some e) ∧
      (Post w m heap res path data).trace =
        [.poolGet m.pool.Get.1 m.pool.free.isEmpty, .send m.pool.Get.1 req]) ∧
    (∀ req rsp, postRequest w m.BaseUrl path data = .ok req →
      w.Do m.pool.Get.1 req = .ok rsp →
      ∃ rcv heap1, getPointer w heap res = some (rcv, heap1) ∧
        (Post w m heap res path data).outcome = .returned (decodeInto w heap1 rsp rcv).2.1) ∧
    (∀ req rsp, postRequest w m.BaseUrl path data = .ok req →
      w.Do m.pool.Get.1 req = .ok rsp →
      (Post w m heap res path data).outcome = .returned
        (match res with
          | .pointer t (some a) => (w.Decode rsp t a heap).2
          | .value t _ => (w.Decode rsp t heap.next (heap.alloc (w.zero t)).2).2
          | v => some (w.DecodeInvalid rsp v))) ∧
    ((Post w m heap res path data).outcome = .returned none ↔
      ∃ req rsp rcv heap1, postRequest w m.BaseUrl path data = .ok req ∧
        w.Do m.pool.Get.1 req = .ok rsp ∧ getPointer w heap res = some (rcv, heap1) ∧
        (decodeInto w heap1 rsp rcv).2.1 = none) ∧
    ((Post w m heap res path data).outcome = .returned none ↔
      ∃ req rsp, postRequest w m.BaseUrl path data = .ok req ∧
        w.Do m.pool.Get.1 req = .ok rsp ∧
        (match res with
          | .pointer t (some a) => (w.Decode rsp t a heap).2
          | .value t _ => (w.Decode rsp t heap.next (heap.alloc (w.zero t)).2).2
          | v => some (w.DecodeInvalid rsp v)) = none) := by
  intro hres
  have hptr : ∃ rcv heap1, getPointer w heap res = some (rcv, heap1) := by
    cases res with
    | nil => exact absurd rfl hres
    | pointer t a => exact ⟨_, _, rfl⟩
    | value t v => exact ⟨_, _, rfl⟩
  obtain ⟨rcv, heap1, hp⟩ := hptr
  have hget := unmarshalAny_error w heap
  have hpost := fun rsp => decodeInto_error w heap rsp res rcv heap1 hp
  have hgetnil : (Get w m heap res path data).outcome = .returned none ↔
      ∃ req rsp body, getRequest w m.BaseUrl path data = .ok req ∧
        w.Do m.pool.Get.1 req = .ok rsp ∧ w.ReadAll rsp = .ok body ∧
        (unmarshalAny w heap body res).2.1 = none := by
    constructor
    · intro hnil
      cases h1 : getRequest w m.BaseUrl path data with
      | error e =>
        rw [Get, get_build_error w m heap res path data e h1] at hnil
        simp at hnil
      | ok req =>
        cases h2 : w.Do m.pool.Get.1 req with
        | error e =>
          rw [Get, get_do_error w m heap res path data req e h1 h2] at hnil
          simp at hnil
        | ok rsp =>
          cases h3 : w.ReadAll rsp with
          | error e =>
            rw [Get, get_read_error w m heap res path data req rsp e h1 h2 h3] at hnil
            simp at hnil
          | ok body =>
            rw [Get, get_decoded w m heap res path data req rsp body h1 h2 h3] at hnil
            simp only [Outcome.returned.injEq] at hnil
            exact ⟨req, rsp, body, rfl, h2, h3, hnil⟩
    · rintro ⟨req, rsp, body, h1, h2, h3, h4⟩
      rw [Get, get_decoded w m heap res path data req rsp body h1 h2 h3]
      simp only [h4]
  have hpostnil : (Post w m heap res path data).outcome = .returned none ↔
      ∃ req rsp rcv heap1, postRequest w m.BaseUrl path data = .ok req ∧
        w.Do m.pool.Get.1 req = .ok rsp ∧ getPointer w heap res = some (rcv, heap1) ∧
        (decodeInto w heap1 rsp rcv).2.1 = none := by
    constructor
    · intro hnil
      cases h1 : postRequest w m.BaseUrl path data with
      | error e =>
        rw [Post, post_build_error w m heap res path data e h1] at hnil
        simp at hnil
      | ok req =>
        cases h2 : w.Do m.pool.Get.1 req with
        | error e =>
          rw [Post, post_do_error w m heap res path data req rcv heap1 e h1 hp h2] at hnil
          simp at hnil
        | ok rsp =>
          rw [Post, post_decoded w m heap res path data req rcv heap1 rsp h1 hp h2] at hnil
          simp only [Outcome.returned.injEq] at hnil
          exact ⟨req, rsp, rcv, heap1, rfl, h2, hp, hnil⟩
    · rintro ⟨req, rsp, rcv1, heap2, h1, h2, h3, h4⟩
      rw [Post, post_decoded w m heap res path data req rcv1 heap2 rsp h1 h3 h2]
      simp only [h4]
  refine ⟨?_, ?_, ?_, ?_, ?_, hgetnil, ?_, ?_, ?_, ?_, ?_, hpostnil, ?_⟩
  · intro e h1
    rw [Get, get_build_error w m heap res path data e h1]
    exact ⟨rfl, rfl⟩
  · intro req e h1 h2
    rw [Get, get_do_error w m heap res path data req e h1 h2]
    exact ⟨rfl, rfl⟩
  · intro req rsp e h1 h2 h3
    rw [Get, get_read_error w m heap res path data req rsp e h1 h2 h3]
    exact ⟨rfl, rfl⟩
  · intro req rsp body h1 h2 h3
    rw [Get, get_decoded w m heap res path data req rsp body h1 h2 h3]
  · intro req rsp body h1 h2 h3
    rw [Get, get_decoded w m heap res path data req rsp body h1 h2 h3, hget body res]
  · rw [hgetnil]
    constructor
    · rintro ⟨req, rsp, body, h1, h2, h3, h4⟩
      exact ⟨req, rsp, body, h1, h2, h3, by rw [← hget body res]; exact h4⟩
    · rintro ⟨req, rsp, body, h1, h2, h3, h4⟩
      exact ⟨req, rsp, body, h1, h2, h3, by rw [hget body res]; exact h4⟩
  · intro e h1
    rw [Post, post_build_error w m heap res path data e h1]
    exact ⟨rfl, rfl⟩
  · intro req e h1 h2
    rw [Post, post_do_error w m heap res path data req rcv heap1 e h1 hp h2]
    exact ⟨rfl, rfl⟩
  · intro req rsp h1 h2
    refine ⟨rcv, heap1, hp, ?_⟩
    rw [Post, post_decoded w m heap res path data req rcv heap1 rsp h1 hp h2]
  · intro req rsp h1 h2
    rw [Post, post_decoded w m heap res path data req rcv heap1 rsp h1 hp h2, hpost rsp]
  · rw [hpostnil]
    constructor
    · rintro ⟨req, rsp, rcv1, heap2, h1, h2, h3, h4⟩
      rw [hp] at h3
      simp only [Option.some.injEq, Prod.mk.injEq] at h3
      obtain ⟨h5, h6⟩ := h3
      rw [← h5, ← h6] at h4
      exact ⟨req, rsp, h1, h2, by rw [← hpost rsp]; exact h4⟩
    · rintro ⟨req, rsp, h1, h2, h4⟩
      exact ⟨req, rsp, rcv, heap1, h1, h2, hp, by rw [hpost rsp]; exact h4⟩

/-- C8 at a concrete call: a `Post` whose URL holds a control character returns the
error of `http.NewRequest` and does nothing but take a client from the pool. -/
theorem first_failure_is_returned_witness :
    (Post (demoWorld "null") (NewRaydium "https://api.example.com") demoHeap
        (.pointer .quote (some 1)) "/quote\n" ⟨none, none, none⟩).outcome =
      .returned (some "net/url: invalid control character in URL") ∧
    (Post (demoWorld "null") (NewRaydium "https://api.example.com") demoHeap
        (.pointer .quote (some 1)) "/quote\n" ⟨none, none, none⟩).trace =
      [.poolGet (NewRaydium "https://api.example.com").pool.Get.1
        (NewRaydium "https://api.example.com").pool.free.isEmpty] :=
  (first_failure_is_returned (demoWorld "null") (NewRaydium "https://api.example.com")
    demoHeap (.pointer .quote (some 1)) "/quote\n" ⟨none, none, none⟩
    (by decide)).2.2.2.2.2.2.2.1 "net/url: invalid control character in URL"
    (by set_option maxRecDepth 100000 in rfl)

/-- C10, as stated, fails: a `Post` with the nil interface as result does not panic when
the URL does not parse; it returns the error of `http.NewRequest`, because `getPointer`
is only reached once the request is built. -/
theorem post_nil_result_bad_url_returns_error :
    (Post (demoWorld "null") (NewRaydium "https://api.example.com") demoHeap .nil "/quote\n"
        ⟨none, none, none⟩).outcome =
      .returned (some "net/url: invalid control character in URL") ∧
    (Post (demoWorld "null") (NewRaydium "https://api.example.com") demoHeap .nil "/quote\n"
        ⟨none, none, none⟩).outcome ≠ .panicked := by
  constructor <;> set_option maxRecDepth 100000 in decide

/-- C10, amended: a public operation panics in exactly two cases.  `SwapQuote` panics
exactly when the header map is nil, before a client is taken or a request built.
`Post` panics exactly when the result is the nil interface and the request is built
(when `http.NewRequest` fails the error is returned instead); the panic comes after the
request is built and before the transport is invoked.  In every other case `Get`,
`Post` and `SwapQuote` return an error or nil; `Get` never panics, nor does `Post` with
a pointer result, nil or not. -/
theorem panics_exactly_when (w : World E R T V) (m : Raydium) (heap : Heap V)
    (res : GoAny T V) (path : String) (data : RaydiumRequest) (headers : Option GoMap)
    (q : RaydiumQuoteRequest) :
    ((SwapQuote w m heap res headers q).run.outcome = .panicked ↔ headers = none) ∧
    (headers = none → (SwapQuote w m heap res headers q).run.trace = []) ∧
    (headers ≠ none → ∃ err, (SwapQuote w m heap res headers q).run.outcome = .returned err) ∧
    ((Post w m heap res path data).outcome = .panicked ↔
      res = .nil ∧ ∃ req, postRequest w m.BaseUrl path data = .ok req) ∧
    ((Post w m heap res path data).outcome = .panicked →
      (Post w m heap res path data).sent = none ∧
      (Post w m heap res path data).trace = [.poolGet m.pool.Get.1 m.pool.free.isEmpty]) ∧
    (¬ (res = .nil ∧ ∃ req, postRequest w m.BaseUrl path data = .ok req) →
      ∃ err, (Post w m heap res path data).outcome = .returned err) ∧
    (∃ err, (Get w m heap res path data).outcome = .returned err) ∧
    (∃ err, (Get w m heap .nil path data).outcome = .returned err) ∧
    (∀ t a, ∃ err, (Post w m heap (.pointer t a) path data).outcome = .returned err) := by
  have hpost : (Post w m heap res path data).outcome = .panicked ↔
      res = .nil ∧ ∃ req, postRequest w m.BaseUrl path data = .ok req := by
    constructor
    · intro hpanic
      cases res with
      | nil =>
        refine ⟨rfl, ?_⟩
        cases h1 : postRequest w m.BaseUrl path data with
        | error e =>
          rw [Post, post_build_error w m heap _ path data e h1] at hpanic
          simp at hpanic
        | ok req => exact ⟨req, rfl⟩
      | pointer t a =>
        obtain ⟨err, herr⟩ := post_returns w m heap (.pointer t a) path data _ _ rfl
        rw [Post, herr] at hpanic
        simp at hpanic
      | value t v =>
        obtain ⟨err, herr⟩ := post_returns w m heap (.value t v) path data _ _ rfl
        rw [Post, herr] at hpanic
        simp at hpanic
    · rintro ⟨hnil, req, h1⟩
      rw [hnil, Post, post_panic w m heap .nil path data req h1 rfl]
  refine ⟨?_, ?_, ?_, hpost, ?_, ?_, ?_, ?_, ?_⟩
  · cases headers with
    | none => simp [SwapQuote, queryValues]
    | some h =>
      obtain ⟨err, herr⟩ := get_returns w m heap res "/compute/swap-base-in"
        (swapQuoteRequest [("inputMint", [q.InputMint]), ("outputMint", [q.OutputMint]),
          ("amount", [formatInt q.Amount]), ("slippageBps", [formatInt q.SlippageBps]),
          ("txVersion", [q.TxVersion])] h)
      rw [swapQuote_run, herr]
      simp
  · intro hnone
    rw [hnone]
    simp [SwapQuote, queryValues]
  · intro hsome
    cases headers with
    | none => exact absurd rfl hsome
    | some h =>
      rw [swapQuote_run]
      exact get_returns w m heap res _ _
  · intro hpanic
    obtain ⟨hnil, req, h1⟩ := hpost.mp hpanic
    rw [hnil, Post, post_panic w m heap .nil path data req h1 rfl]
    exact ⟨rfl, rfl⟩
  · intro hno
    cases res with
    | nil =>
      cases h1 : postRequest w m.BaseUrl path data with
      | error e => exact ⟨_, by rw [Post, post_build_error w m heap _ path data e h1]⟩
      | ok req => exact absurd ⟨rfl, req, h1⟩ hno
    | pointer t a => exact post_returns w m heap (.pointer t a) path data _ _ rfl
    | value t v => exact post_returns w m heap (.value t v) path data _ _ rfl
  · exact get_returns w m heap res path data
  · exact get_returns w m heap .nil path data
  · intro t a
    exact post_returns w m heap (.pointer t a) path data _ _ rfl

/-- C6: the code departs from the claim when the result is a pointer to a map variable
holding one entry and the response body is the JSON literal `null`.  `Get` returns nil,
but its decoder stored into the callee's own copy of the `any`, not into the caller's
pointer, and the pointee still holds the entry; `null` decoded into the map variable
gives the nil map, which is what `Post` leaves in the pointee on the same input, its
decode target being the caller's pointer. -/
theorem get_null_body_leaves_pointee :
    (Get (demoWorld "null") (NewRaydium "https://api.example.com") demoHeap
        (.pointer .dict (some 0)) "/x" ⟨none, none, none⟩).outcome = .returned none ∧
    (Get (demoWorld "null") (NewRaydium "https://api.example.com") demoHeap
        (.pointer .dict (some 0)) "/x" ⟨none, none, none⟩).target = some .localCopy ∧
    (Get (demoWorld "null") (NewRaydium "https://api.example.com") demoHeap
        (.pointer .dict (some 0)) "/x" ⟨none, none, none⟩).heap.cells 0 =
      .dict (some [("old", "1")]) ∧
    (demoDecode "null" .dict (demoHeap.cells 0)).1 = .dict none ∧
    (Post (demoWorld "null") (NewRaydium "https://api.example.com") demoHeap
        (.pointer .dict (some 0)) "/x" ⟨none, none, none⟩).outcome = .returned none ∧
    (Post (demoWorld "null") (NewRaydium "https://api.example.com") demoHeap
        (.pointer .dict (some 0)) "/x" ⟨none, none, none⟩).target = some (.pointee 0) ∧
    (Post (demoWorld "null") (NewRaydium "https://api.example.com") demoHeap
        (.pointer .dict (some 0)) "/x" ⟨none, none, none⟩).heap.cells 0 = .dict none := by
  refine ⟨?_, ?_, ?_, ?_, ?_, ?_, ?_⟩ <;> set_option maxRecDepth 100000 in decide

/-- C9, as stated, fails: a `SwapQuote` with a nil header map panics before it takes a
client from the pool, so this call uses no transport client at all. -/
theorem swapQuote_nil_headers_takes_no_client :
    (SwapQuote (demoWorld "null") (NewRaydium "https://api.example.com") demoHeap
        (.pointer .quote (some 1)) none ⟨"A", "B", 1000000, 50, "V0"⟩).run.acquired = [] ∧
    (SwapQuote (demoWorld "null") (NewRaydium "https://api.example.com") demoHeap
        (.pointer .quote (some 1)) none ⟨"A", "B", 1000000, 50, "V0"⟩).run.outcome =
      .panicked ∧
    (SwapQuote (demoWorld "null") (NewRaydium "https://api.example.com") demoHeap
        (.pointer .quote (some 1)) none ⟨"A", "B", 1000000, 50, "V0"⟩).run.pool =
      (NewRaydium "https://api.example.com").pool := by
  refine ⟨?_, ?_, ?_⟩ <;> decide

/-- C9, amended: with the pool a free list with a constructor, no call of `Get`, `Post`
or `SwapQuote` puts a client back (the free list after a call is the one before it or
its tail); so after any sequence of calls on a client made by `NewRaydium` the free
list is empty and every client taken was made by `New` for that call, with a timeout of
5000 ms.  Every call of `Get` or `Post`, and every call of `SwapQuote` with a non-nil
header map, takes exactly one client; a `SwapQuote` with a nil header map takes none and
leaves the pool as it was.  No client is taken twice. -/
theorem pool_only_serves_new_clients (w : World E R T V) (baseUrl : String)
    (calls : List (Call T V)) :
    (∀ (m : Raydium) (c : Call T V),
      (c.run w m).pool.free = m.pool.free ∨ (c.run w m).pool.free = m.pool.free.tail) ∧
    (NewRaydium baseUrl).pool.free = [] ∧
    (∀ r ∈ runCalls w (NewRaydium baseUrl) calls, r.pool.free = []) ∧
    (∀ r ∈ runCalls w (NewRaydium baseUrl) calls, ∀ cl b,
      Event.poolGet cl b ∈ r.trace → b = true ∧ cl.timeoutMs = 5000) ∧
    (∀ r ∈ runCalls w (NewRaydium baseUrl) calls, r.acquired.length ≤ 1) ∧
    (∀ (m : Raydium) (heap : Heap V) (res : GoAny T V) (path : String)
        (data : RaydiumRequest),
      (Get w m heap res path data).acquired = [m.pool.Get.1] ∧
      (Get w m heap res path data).pool = m.pool.Get.2 ∧
      (Post w m heap res path data).acquired = [m.pool.Get.1] ∧
      (Post w m heap res path data).pool = m.pool.Get.2) ∧
    (∀ (m : Raydium) (heap : Heap V) (res : GoAny T V) (h : GoMap)
        (q : RaydiumQuoteRequest),
      (SwapQuote w m heap res (some h) q).run.acquired = [m.pool.Get.1] ∧
      (SwapQuote w m heap res (some h) q).run.pool = m.pool.Get.2) ∧
    (∀ (m : Raydium) (heap : Heap V) (res : GoAny T V) (q : RaydiumQuoteRequest),
      (SwapQuote w m heap res none q).run.acquired = [] ∧
      (SwapQuote w m heap res none q).run.pool = m.pool) ∧
    (∀ (m : Raydium), m.pool.free = [] →
      m.pool.Get.1 = { id := m.pool.made, timeoutMs := 5000 } ∧
      m.pool.Get.2 = { free := [], made := m.pool.made + 1 }) ∧
    ((runCalls w (NewRaydium baseUrl) calls).flatMap Run.acquired).Nodup := by
  obtain ⟨h1, k, h2⟩ := runCalls_pool w calls (NewRaydium baseUrl) rfl
  refine ⟨?_, rfl, fun r hr => (h1 r hr).1, fun r hr => (h1 r hr).2.2,
    fun r hr => (h1 r hr).2.1, ?_, ?_, ?_, ?_, ?_⟩
  · intro m c
    rcases call_pool w m c with ⟨hpool, _, _⟩ | ⟨hpool, _⟩
    · rw [hpool]
      cases hf : m.pool.free with
      | nil => left; simp [Pool.Get, hf]
      | cons x rest => right; simp [Pool.Get, hf]
    · left; rw [hpool]
  · intro m heap res path data
    exact ⟨(get_pool w m heap res path data).2.1, (get_pool w m heap res path data).1,
      (post_pool w m heap res path data).2.1, (post_pool w m heap res path data).1⟩
  · intro m heap res h q
    rw [swapQuote_run]
    exact ⟨(get_pool w m heap res _ _).2.1, (get_pool w m heap res _ _).1⟩
  · intro m heap res q
    simp [SwapQuote, queryValues, Run.acquired]
  · intro m hfree
    simp [Pool.Get, hfree, Pool.New]
  · rw [h2]
    apply List.Nodup.map
    · intro a b hab
      simpa using hab
    · exact List.nodup_range' _ _

end Claims

end RaydiumApi
